import Mathlib

/-!
# Verification of the roundtable operator reconcilers

A shallow embedding of the dapperdivers/roundtable Kubernetes operator:
the Chain (Pipeline) reconciler, the Mission reconciler, the RoundTable
(Fleet) reconciler and the Knight (Agent) pod-spec builder, translated
from the Go sources.  External effects (the cluster API, the NATS bus,
`strconv.ParseFloat`, `text/template`) are modelled as explicit
environment parameters; every reconcile pass is a pure function from the
resource and the environment to the updated resource, the trace of
status updates and the list of bus messages published.

Times are modelled as integers (milliseconds for the Chain reconciler,
seconds for the Mission reconciler, matching the granularity the Go code
compares at); monetary amounts are rationals.
-/

namespace RoundTable

/-- A status condition (`metav1.Condition`): type, status (True/False),
reason and message.  Timestamps are not modelled. -/
structure Condition where
  ctype : String
  cstatus : Bool
  reason : String
  message : String
deriving Repr, DecidableEq

/-- `meta.SetStatusCondition`: replace the condition with the same type
in place, or append it. -/
def setCondition (conds : List Condition) (c : Condition) : List Condition :=
  if conds.any (fun x => x.ctype = c.ctype) then
    conds.map (fun x => if x.ctype = c.ctype then c else x)
  else
    conds ++ [c]

/-- `meta.FindStatusCondition`: the first condition with the given type. -/
def findCondition (conds : List Condition) (t : String) : Option Condition :=
  conds.find? (fun x => x.ctype = t)

/-! ## Knight (Agent) data model — `knight_types.go` -/

/-- `KnightNATS`: bus connection settings of a Knight. -/
structure KnightNATS where
  url : String
  subjects : List String
  stream : String
  resultsStream : String
  consumerName : String
  maxDeliver : Int
deriving Repr, DecidableEq

/-- `KnightVault`: the shared vault mount settings. -/
structure KnightVault where
  claimName : String
  readOnly : Bool
  writablePaths : List String
deriving Repr, DecidableEq

/-- `KnightArsenal`: git-sync sidecar settings. -/
structure KnightArsenal where
  repo : String
  ref : String
  period : String
  image : String
deriving Repr, DecidableEq

/-- `KnightWorkspace`: workspace volume settings. -/
structure KnightWorkspace where
  existingClaim : String
  size : String
deriving Repr, DecidableEq

/-- `KnightTools`: package lists for tool provisioning. -/
structure KnightTools where
  nix : List String
  apt : List String
  mise : List String
deriving Repr, DecidableEq

/-- `KnightResources`: resource limits (quantities kept as strings; the
empty string models a zero `resource.Quantity`). -/
structure KnightResources where
  memory : String
  cpu : String
deriving Repr, DecidableEq

/-- `KnightPhase`. -/
inductive KnightPhase where
  | pending
  | provisioning
  | ready
  | degraded
  | suspended
deriving Repr, DecidableEq

/-- `KnightSpec` (prompt and env/envFrom omitted: no claim depends on
them). -/
structure KnightSpec where
  domain : String
  model : String
  image : String
  skills : List String
  tools : Option KnightTools
  nats : KnightNATS
  vault : Option KnightVault
  resources : Option KnightResources
  concurrency : Int
  taskTimeout : Int
  arsenal : Option KnightArsenal
  workspace : Option KnightWorkspace
  suspended : Bool
deriving Repr, DecidableEq

/-- `KnightStatus` (the fields other controllers read). -/
structure KnightStatus where
  phase : KnightPhase
  ready : Bool
  tasksCompleted : Int
  totalCost : String
deriving Repr, DecidableEq

/-- A Knight resource as observed through the cluster API. -/
structure Knight where
  name : String
  spec : KnightSpec
  status : KnightStatus
deriving Repr, DecidableEq

/-! ## RoundTable (Fleet) data model — `roundtable_types.go` -/

/-- `RoundTableNATS`. -/
structure RTNats where
  url : String
  subjectPfx : String
  tasksStream : String
  resultsStream : String
  createStreams : Bool
  streamRetention : String
deriving Repr, DecidableEq

/-- `RoundTablePolicies`. -/
structure RTPolicies where
  maxConcurrentTasks : Int
  costBudgetUSD : String
  costResetSchedule : String
  maxKnights : Int
  maxMissions : Int
deriving Repr, DecidableEq

/-- `RoundTableSpec` (selector and defaults omitted: selection is
modelled by passing the matched Knight list to the reconciler). -/
structure RTSpec where
  description : String
  nats : RTNats
  policies : Option RTPolicies
  suspended : Bool
deriving Repr, DecidableEq

/-- `RoundTablePhase`. -/
inductive RTPhase where
  | provisioning
  | ready
  | degraded
  | suspended
  | overBudget
deriving Repr, DecidableEq

/-- `RoundTableStatus` (the fields the reconciler writes). -/
structure RTStatus where
  phase : Option RTPhase
  knightsReady : Int
  knightsTotal : Int
  totalTasksCompleted : Int
  totalCost : Rat
  activeMissions : Int
  observedGeneration : Int
  conditions : List Condition
deriving Repr, DecidableEq

/-- A RoundTable resource. -/
structure RT where
  name : String
  nspace : String
  generation : Int
  spec : RTSpec
  status : RTStatus
deriving Repr, DecidableEq

/-! ## Fleet reconciler — `roundtable_controller.go`

`strconv.ParseFloat` is modelled by an explicit parameter
`parse : String → Option ℚ`: `none` models a parse error, `some q` a
successful parse. -/

/-- Aggregates computed by the health-aggregation loop of
`RoundTableReconciler.Reconcile`: ready count, total tasks completed and
total cost.  A knight whose `status.totalCost` is empty or does not
parse contributes nothing to the cost sum, mirroring the silent
`err == nil` guard in the Go loop. -/
structure FleetAgg where
  readyCount : Int
  totalTasks : Int
  totalCost : Rat
deriving Repr, DecidableEq

/-- One iteration of the health-aggregation loop. -/
def aggStep (parse : String → Option Rat) (acc : FleetAgg) (k : Knight) : FleetAgg :=
  { readyCount := acc.readyCount + (if k.status.ready then 1 else 0)
    totalTasks := acc.totalTasks + k.status.tasksCompleted
    totalCost := acc.totalCost +
      (if k.status.totalCost ≠ "" then
        (match parse k.status.totalCost with
         | some c => c
         | none => 0)
      else 0) }

/-- The health-aggregation loop over the discovered knights. -/
def aggregateKnights (parse : String → Option Rat) (ks : List Knight) : FleetAgg :=
  ks.foldl (aggStep parse) ⟨0, 0, 0⟩

/-- `RoundTableReconciler.computePhase`: over-budget check first, then
provisioning / ready / degraded from the ready count. -/
def computePhase (parse : String → Option Rat) (rt : RT)
    (readyCount total : Int) (totalCost : Rat) : RTPhase :=
  let overBudgetHit :=
    match rt.spec.policies with
    | none => false
    | some pol =>
      if pol.costBudgetUSD ≠ "" ∧ pol.costBudgetUSD ≠ "0" then
        match parse pol.costBudgetUSD with
        | some budget => decide (totalCost > budget)
        | none => false
      else false
  if overBudgetHit then .overBudget
  else if total = 0 then .provisioning
  else if readyCount = total then .ready
  else .degraded

/-- Outcome of a Fleet reconcile: the updated status and the error
returned to the controller runtime, if any. -/
structure FleetOutcome where
  status : RTStatus
  err : Option String
deriving Repr, DecidableEq

/-- The Available condition set by the phase switch at the end of
`RoundTableReconciler.Reconcile`. -/
def fleetAvailableCondition (rt : RT) (phase : RTPhase)
    (readyCount total : Int) : Condition :=
  match phase with
  | .ready =>
      ⟨"Available", true, "AllKnightsReady",
        "All " ++ toString total ++ " knights are ready"⟩
  | .degraded =>
      ⟨"Available", false, "KnightsDegraded",
        toString readyCount ++ "/" ++ toString total ++ " knights ready"⟩
  | .overBudget =>
      ⟨"Available", false, "OverBudget",
        "Cost exceeds budget " ++
          (match rt.spec.policies with
           | some pol => pol.costBudgetUSD
           | none => "")⟩
  | _ => ⟨"Available", false, "Provisioning", "RoundTable is provisioning"⟩

/-- `RoundTableReconciler.Reconcile`, with the knight listing passed in
as an `Except` (its `.error` case models a failed List call, the only
error source on this path; stream provisioning and the mission count
are external and not modelled). -/
def fleetReconcile (parse : String → Option Rat) (rt : RT)
    (listRes : Except String (List Knight)) : FleetOutcome :=
  if rt.spec.suspended then
    { status :=
        { rt.status with
          phase := some .suspended
          conditions := setCondition rt.status.conditions
            ⟨"Available", false, "Suspended", "RoundTable is suspended"⟩
          observedGeneration := rt.generation }
      err := none }
  else
    match listRes with
    | .error e => { status := rt.status, err := some e }
    | .ok knights =>
      let agg := aggregateKnights parse knights
      let total : Int := knights.length
      let phase := computePhase parse rt agg.readyCount total agg.totalCost
      { status :=
          { rt.status with
            phase := some phase
            knightsReady := agg.readyCount
            knightsTotal := total
            totalTasksCompleted := agg.totalTasks
            totalCost := agg.totalCost
            conditions := setCondition rt.status.conditions
              (fleetAvailableCondition rt phase agg.readyCount total)
            observedGeneration := rt.generation }
        err := none }

/-- The claim's reading of the phase cascade: the budget is "set" when
non-empty and not the literal "0", and the cost "exceeds it" when the
budget string parses to a rational below the cost. -/
def budgetExceeded (parse : String → Option Rat) (pol : Option RTPolicies)
    (totalCost : Rat) : Prop :=
  ∃ p b, pol = some p ∧ p.costBudgetUSD ≠ "" ∧ p.costBudgetUSD ≠ "0" ∧
    parse p.costBudgetUSD = some b ∧ totalCost > b

theorem budgetExceeded_iff (parse : String → Option Rat) (rt : RT) (cost : Rat) :
    budgetExceeded parse rt.spec.policies cost ↔
      (match rt.spec.policies with
       | none => false
       | some pol =>
         if pol.costBudgetUSD ≠ "" ∧ pol.costBudgetUSD ≠ "0" then
           match parse pol.costBudgetUSD with
           | some budget => decide (cost > budget)
           | none => false
         else false) = true := by
  constructor
  · rintro ⟨p, b, hp, h1, h2, hparse, hgt⟩
    rw [hp]
    simp only [h1, h2, ne_eq, not_false_iff, and_self, if_true, hparse]
    simpa using hgt
  · intro h
    cases hpol : rt.spec.policies with
    | none => rw [hpol] at h; simp at h
    | some pol =>
      rw [hpol] at h
      dsimp only at h
      by_cases hset : pol.costBudgetUSD ≠ "" ∧ pol.costBudgetUSD ≠ "0"
      · rw [if_pos hset] at h
        cases hparse : parse pol.costBudgetUSD with
        | none => rw [hparse] at h; simp at h
        | some b =>
          rw [hparse] at h
          exact ⟨pol, b, rfl, hset.1, hset.2, hparse, by simpa using h⟩
      · rw [if_neg hset] at h; simp at h

open Classical in
/-- `computePhase` written as the claim's if-cascade. -/
theorem computePhase_eq_cascade (parse : String → Option Rat) (rt : RT)
    (readyCount total : Int) (cost : Rat) :
    computePhase parse rt readyCount total cost =
      if budgetExceeded parse rt.spec.policies cost then .overBudget
      else if total = 0 then .provisioning
      else if readyCount = total then .ready
      else .degraded := by
  unfold computePhase
  by_cases hb : budgetExceeded parse rt.spec.policies cost
  · rw [if_pos hb]
    rw [((budgetExceeded_iff parse rt cost).mp hb)]
    rfl
  · rw [if_neg hb]
    have : (match rt.spec.policies with
       | none => false
       | some pol =>
         if pol.costBudgetUSD ≠ "" ∧ pol.costBudgetUSD ≠ "0" then
           match parse pol.costBudgetUSD with
           | some budget => decide (cost > budget)
           | none => false
         else false) = false := by
      cases hh : (match rt.spec.policies with
       | none => false
       | some pol =>
         if pol.costBudgetUSD ≠ "" ∧ pol.costBudgetUSD ≠ "0" then
           match parse pol.costBudgetUSD with
           | some budget => decide (cost > budget)
           | none => false
         else false) with
      | false => rfl
      | true => exact absurd ((budgetExceeded_iff parse rt cost).mpr hh) hb
    rw [this]
    simp only [Bool.false_eq_true, if_false]

/-- C6: for a non-suspended Fleet reconcile over the selected knights,
the resulting phase is `computePhase` of the aggregates, and
`computePhase` follows the cascade OverBudget / Provisioning / Ready /
Degraded described by the spec. -/
theorem fleet_phase_cascade (parse : String → Option Rat) (rt : RT)
    (ks : List Knight) (hsus : rt.spec.suspended = false) :
    ((fleetReconcile parse rt (.ok ks)).status.phase =
      some (computePhase parse rt (aggregateKnights parse ks).readyCount
        (ks.length : Int) (aggregateKnights parse ks).totalCost))
    ∧ (∀ readyCount total cost,
        (budgetExceeded parse rt.spec.policies cost →
          computePhase parse rt readyCount total cost = .overBudget)
        ∧ (¬ budgetExceeded parse rt.spec.policies cost → total = 0 →
          computePhase parse rt readyCount total cost = .provisioning)
        ∧ (¬ budgetExceeded parse rt.spec.policies cost → total ≠ 0 →
            readyCount = total →
          computePhase parse rt readyCount total cost = .ready)
        ∧ (¬ budgetExceeded parse rt.spec.policies cost → total ≠ 0 →
            readyCount ≠ total →
          computePhase parse rt readyCount total cost = .degraded)) := by
  constructor
  · unfold fleetReconcile
    rw [hsus]
    rfl
  · intro readyCount total cost
    refine ⟨?_, ?_, ?_, ?_⟩
    · intro hb
      rw [computePhase_eq_cascade, if_pos hb]
    · intro hb ht
      rw [computePhase_eq_cascade, if_neg hb, if_pos ht]
    · intro hb ht hr
      rw [computePhase_eq_cascade, if_neg hb, if_neg ht, if_pos hr]
    · intro hb ht hr
      rw [computePhase_eq_cascade, if_neg hb, if_neg ht, if_neg hr]

/-- A concrete parse function standing in for `strconv.ParseFloat` in
witnesses: parses the handful of literals the witnesses use. -/
def parseW : String → Option Rat := fun s =>
  if s = "10.00" then some 10
  else if s = "7.5" then some (15/2)
  else if s = "0" then some 0
  else none

/-- A knight status that is ready with a given cost string. -/
def knightW (name cost : String) : Knight :=
  { name := name
    spec :=
      { domain := "security", model := "m", image := "", skills := ["security"]
        tools := none
        nats := ⟨"nats://nats.test:4222", ["fleet-a.tasks.security.>"],
          "fleet_a_tasks", "fleet_a_results", "", 1⟩
        vault := none, resources := none, concurrency := 2, taskTimeout := 120
        arsenal := none, workspace := none, suspended := false }
    status := ⟨.ready, true, 3, cost⟩ }

/-- A fleet with a 10.00 USD budget. -/
def rtW : RT :=
  { name := "camelot", nspace := "default", generation := 1
    spec :=
      { description := ""
        nats := ⟨"nats://nats.test:4222", "camelot", "camelot_tasks",
          "camelot_results", false, "WorkQueue"⟩
        policies := some ⟨0, "10.00", "", 0, 5⟩
        suspended := false }
    status := ⟨none, 0, 0, 0, 0, 0, 0, []⟩ }

theorem fleet_phase_cascade_witness :
    (fleetReconcile parseW rtW
      (.ok [knightW "galahad" "7.5", knightW "kay" "7.5"])).status.phase =
      some RTPhase.overBudget := by
  have h := fleet_phase_cascade parseW rtW
    [knightW "galahad" "7.5", knightW "kay" "7.5"] rfl
  rw [h.1]
  rw [(h.2 _ _ _).1 ⟨⟨0, "10.00", "", 0, 5⟩, 10, rfl, by decide, by decide,
    rfl, by simp [aggregateKnights, aggStep, knightW, parseW]; norm_num⟩]

/-- C10: unparsable cost strings are tolerated.  A knight whose
`totalCost` does not parse contributes zero to the fleet cost; an
unparsable `costBudgetUSD` makes the phase identical to the phase with
no policies at all (so never OverBudget); and a successful list call
never yields a reconcile error, whatever the parses do. -/
theorem fleet_unparsable_cost_tolerated (parse : String → Option Rat) :
    (∀ (ks : List Knight) (k : Knight), parse k.status.totalCost = none →
      (aggregateKnights parse (ks ++ [k])).totalCost =
        (aggregateKnights parse ks).totalCost)
    ∧ (∀ (rt : RT) (pol : RTPolicies) (readyCount total : Int) (cost : Rat),
        rt.spec.policies = some pol → parse pol.costBudgetUSD = none →
        computePhase parse rt readyCount total cost =
          computePhase parse
            { rt with spec := { rt.spec with policies := none } }
            readyCount total cost
        ∧ computePhase parse rt readyCount total cost ≠ .overBudget)
    ∧ (∀ (rt : RT) (ks : List Knight),
        (fleetReconcile parse rt (.ok ks)).err = none) := by
  refine ⟨?_, ?_, ?_⟩
  · intro ks k hk
    unfold aggregateKnights
    rw [List.foldl_append]
    simp only [List.foldl_cons, List.foldl_nil, aggStep, hk]
    by_cases he : k.status.totalCost ≠ ""
    · simp [he]
    · simp [he]
  · intro rt pol readyCount total cost hpol hparse
    have hcascade : computePhase parse rt readyCount total cost =
        (if total = 0 then RTPhase.provisioning
         else if readyCount = total then RTPhase.ready
         else RTPhase.degraded) := by
      unfold computePhase
      rw [hpol]
      dsimp only
      by_cases hset : pol.costBudgetUSD ≠ "" ∧ pol.costBudgetUSD ≠ "0"
      · rw [if_pos hset, hparse]
        simp
      · rw [if_neg hset]
        simp
    constructor
    · rw [hcascade]
      unfold computePhase
      rfl
    · rw [hcascade]
      by_cases ht : total = 0
      · simp [ht]
      · by_cases hr : readyCount = total <;> simp [ht, hr]
  · intro rt ks
    unfold fleetReconcile
    by_cases hs : rt.spec.suspended <;> simp [hs]

/-- A knight whose cost string does not parse. -/
def knightGarbage : Knight := knightW "bors" "not-a-number"

/-- A fleet whose cost budget does not parse. -/
def rtGarbage : RT :=
  { rtW with spec := { rtW.spec with policies := some ⟨0, "garbage", "", 0, 5⟩ } }

theorem fleet_unparsable_cost_tolerated_witness :
    (aggregateKnights parseW [knightW "galahad" "7.5", knightGarbage]).totalCost =
      (aggregateKnights parseW [knightW "galahad" "7.5"]).totalCost
    ∧ computePhase parseW rtGarbage 1 1 100 ≠ .overBudget
    ∧ (fleetReconcile parseW rtGarbage
        (.ok [knightW "galahad" "7.5", knightGarbage])).err = none := by
  refine ⟨?_, ?_, ?_⟩
  · exact (fleet_unparsable_cost_tolerated parseW).1
      [knightW "galahad" "7.5"] knightGarbage (by decide)
  · exact (((fleet_unparsable_cost_tolerated parseW).2.1 rtGarbage
      ⟨0, "garbage", "", 0, 5⟩ 1 1 100 rfl (by decide)).2)
  · exact (fleet_unparsable_cost_tolerated parseW).2.2 rtGarbage _

/-! ## Chain (Pipeline) data model — `chain_types.go` -/

/-- `ChainStep`. -/
structure ChainStep where
  name : String
  knightRef : String
  task : String
  dependsOn : List String
  timeout : Int
  outputKey : String
  continueOnFailure : Bool
deriving Repr, DecidableEq

/-- `ChainRetryPolicy`. -/
structure ChainRetryPolicy where
  maxRetries : Int
  backoffSeconds : Int
deriving Repr, DecidableEq

/-- `ChainSpec`. -/
structure ChainSpec where
  description : String
  steps : List ChainStep
  timeout : Int
  schedule : String
  input : String
  roundTableRef : String
  suspended : Bool
  retryPolicy : Option ChainRetryPolicy
deriving Repr, DecidableEq

/-- `ChainPhase` (`none` in `ChainStatus.phase` models the empty
string). -/
inductive ChainPhase where
  | idle
  | running
  | succeeded
  | failed
  | suspended
deriving Repr, DecidableEq

/-- `ChainStepPhase`. -/
inductive ChainStepPhase where
  | pending
  | running
  | succeeded
  | failed
  | skipped
deriving Repr, DecidableEq

/-- `ChainStepStatus`.  Times are integer milliseconds. -/
structure ChainStepStatus where
  name : String
  phase : ChainStepPhase
  startedAt : Option Int
  completedAt : Option Int
  output : String
  error : String
  retries : Int
deriving Repr, DecidableEq

/-- `ChainStatus`. -/
structure ChainStatus where
  phase : Option ChainPhase
  stepStatuses : List ChainStepStatus
  startedAt : Option Int
  completedAt : Option Int
  runsCompleted : Int
  runsFailed : Int
  lastScheduledAt : Option Int
  observedGeneration : Int
  conditions : List Condition
deriving Repr, DecidableEq

/-- A Chain resource with the metadata the reconciler reads. -/
structure Chain where
  name : String
  nspace : String
  generation : Int
  deletionTimestamp : Option Int
  finalizers : List String
  spec : ChainSpec
  status : ChainStatus
deriving Repr, DecidableEq

/-- `TaskPayload`: the JSON envelope published to the bus for a step. -/
structure TaskPayload where
  taskId : String
  chainName : String
  stepName : String
  task : String
deriving Repr, DecidableEq

/-- `TaskResult`: the JSON envelope received for a completed step. -/
structure TaskResult where
  taskId : String
  output : String
  error : String
deriving Repr, DecidableEq

/-- A message published on the bus: subject and payload. -/
structure Published where
  subject : String
  payload : TaskPayload
deriving Repr, DecidableEq

/-- The data handed to the template engine: per-step `(name, Output,
Error)` rows (Go-map upsert semantics) and the pipeline-level input. -/
structure TemplData where
  steps : List (String × String × String)
  input : String
deriving Repr, DecidableEq

/-- The environment of a Chain reconcile: the cluster and bus effects,
`text/template` as an abstract engine, and the wall clock in
milliseconds. -/
structure ChainEnv where
  knights : String → Option Knight
  pollResult : String → String → Option TaskResult
  exec : TemplData → String → Except String String
  publishOk : String → Bool
  now : Int

/-- The finalizer string installed by the Chain reconciler. -/
def chainFinalizer : String := "ai.roundtable.io/chain-finalizer"

/-! ### Substring test — `strings.Contains` -/

/-- Is `pat` a prefix of `l`? -/
def hasPfxChars : List Char → List Char → Bool
  | _, [] => true
  | [], _ :: _ => false
  | c :: l, p :: ps => c = p && hasPfxChars l ps

/-- Does `pat` occur inside `l`? -/
def hasSubChars : List Char → List Char → Bool
  | [], pat => pat.isEmpty
  | c :: l, pat => hasPfxChars (c :: l) pat || hasSubChars l pat

/-- `strings.Contains s pat`. -/
def strContains (s pat : String) : Bool :=
  hasSubChars s.toList pat.toList

/-! ### Template rendering — `ChainReconciler.renderTemplate` -/

/-- The `Steps` map handed to the template: one row per step status,
later rows with the same name overwriting earlier ones (Go map). -/
def templStepsData (sts : List ChainStepStatus) : List (String × String × String) :=
  sts.foldl (fun m ss =>
    if m.any (fun r => r.1 = ss.name) then
      m.map (fun r => if r.1 = ss.name then (ss.name, ss.output, ss.error) else r)
    else m ++ [(ss.name, ss.output, ss.error)]) []

/-- `ChainReconciler.renderTemplate`: a task without "{{" is returned
unchanged; otherwise the abstract engine is run on the step/input
data. -/
def renderTemplate (env : ChainEnv) (input : String)
    (sts : List ChainStepStatus) (task : String) : Except String String :=
  if strContains task "\x7b\x7b" then env.exec ⟨templStepsData sts, input⟩ task
  else .ok task

/-! ### Validation — `validateKnightRefs` and `validateDAG` -/

/-- The loop body of `ChainReconciler.validateKnightRefs`: the first
step whose `knightRef` does not resolve yields the error. -/
def validateRefsGo (env : ChainEnv) : List ChainStep → Except String Unit
  | [] => .ok ()
  | s :: rest =>
    match env.knights s.knightRef with
    | none => .error ("step \"" ++ s.name ++ "\" references non-existent knight \""
        ++ s.knightRef ++ "\"")
    | some _ => validateRefsGo env rest

/-- `ChainReconciler.validateKnightRefs`. -/
def validateKnightRefs (env : ChainEnv) (c : Chain) : Except String Unit :=
  validateRefsGo env c.spec.steps

/-- The first dependency (in step order, then dependency order) naming
an unknown step, with the referencing step. -/
def findUnknownDep (names : List String) : List ChainStep → Option (String × String)
  | [] => none
  | s :: rest =>
    match s.dependsOn.find? (fun d => !names.contains d) with
    | some d => some (s.name, d)
    | none => findUnknownDep names rest

/-- Insert key `n` with value `0`, overwriting (Go map write). -/
def mapInsert0 (m : List (String × Int)) (n : String) : List (String × Int) :=
  if m.any (fun p => p.1 = n) then
    m.map (fun p => if p.1 = n then (n, 0) else p)
  else m ++ [(n, 0)]

/-- `inDegree[n]++`. -/
def bumpDeg (m : List (String × Int)) (n : String) : List (String × Int) :=
  m.map (fun p => if p.1 = n then (p.1, p.2 + 1) else p)

/-- `inDegree[n]--`. -/
def decDeg (m : List (String × Int)) (n : String) : List (String × Int) :=
  m.map (fun p => if p.1 = n then (p.1, p.2 - 1) else p)

/-- Map lookup. -/
def lookupDeg (m : List (String × Int)) (n : String) : Option Int :=
  (m.find? (fun p => p.1 = n)).map (fun p => p.2)

/-- The in-degree map: every step name seeded at 0, then one increment
per `dependsOn` edge. -/
def buildInDeg (steps : List ChainStep) : List (String × Int) :=
  steps.foldl (fun m s => s.dependsOn.foldl (fun m _ => bumpDeg m s.name) m)
    (steps.foldl (fun m s => mapInsert0 m s.name) [])

/-- The initial Kahn queue: names with in-degree 0. -/
def initQueue (m : List (String × Int)) : List String :=
  (m.filter (fun p => p.2 = 0)).map (fun p => p.1)

/-- Processing one dependency occurrence `d` of the step named `sname`
against the dequeued `node`: on a match, decrement the step's
in-degree, enqueueing it when the degree reaches 0. -/
def relaxEdge (node sname : String)
    (acc : List (String × Int) × List String) (d : String) :
    List (String × Int) × List String :=
  if d = node then
    let m2 := decDeg acc.1 sname
    if lookupDeg m2 sname = some 0 then (m2, acc.2 ++ [sname]) else (m2, acc.2)
  else acc

/-- Processing one dequeued `node` against one step: decrement the
step's in-degree once per matching dependency occurrence, enqueueing
the step when its degree reaches 0. -/
def relaxOne (node : String) (s : ChainStep)
    (acc : List (String × Int) × List String) : List (String × Int) × List String :=
  s.dependsOn.foldl (relaxEdge node s.name) acc

/-- Processing one dequeued `node` against all steps. -/
def relaxAll (steps : List ChainStep) (node : String)
    (m : List (String × Int)) : List (String × Int) × List String :=
  steps.foldl (fun acc s => relaxOne node s acc) (m, [])

/-- The Kahn traversal loop, returning the number of drained nodes.
The fuel is a recursion bound only: whatever the fuel, the drain count
stays below the key count (`kahnLoop_le`), so `steps.length + 1`
iterations are never cut short on a map seeded from the steps. -/
def kahnLoop (steps : List ChainStep) :
    Nat → List (String × Int) → List String → Nat → Nat
  | 0, _, _, visited => visited
  | _ + 1, _, [], visited => visited
  | fuel + 1, m, node :: rest, visited =>
    let r := relaxAll steps node m
    kahnLoop steps fuel r.1 (rest ++ r.2) (visited + 1)

/-- The number of nodes drained by the Kahn traversal of the step
graph. -/
def kahnDrained (steps : List ChainStep) : Nat :=
  kahnLoop steps (steps.length + 1) (buildInDeg steps)
    (initQueue (buildInDeg steps)) 0

/-- `ChainReconciler.validateDAG`: reject unknown dependencies, then
run the Kahn traversal and reject when it drains fewer nodes than the
step count. -/
def validateDAG (spec : ChainSpec) : Except String Unit :=
  match findUnknownDep (spec.steps.map (fun s => s.name)) spec.steps with
  | some sd => .error ("step \"" ++ sd.1 ++ "\" depends on unknown step \""
      ++ sd.2 ++ "\"")
  | none =>
    if kahnDrained spec.steps ≠ spec.steps.length then
      .error "chain DAG contains a cycle"
    else .ok ()

/-- `ChainReconciler.initStepStatuses`. -/
def initStepStatuses (steps : List ChainStep) : List ChainStepStatus :=
  steps.map (fun s => ⟨s.name, .pending, none, none, "", "", 0⟩)

/-! ### Execution pass — `ChainReconciler.reconcileRunning` -/

/-- Spec lookup by step name (Go `specMap`). -/
def specLookup (steps : List ChainStep) (n : String) : Option ChainStep :=
  steps.find? (fun s => s.name = n)

/-- Status lookup by step name (Go `statusMap`). -/
def statusLookup (sts : List ChainStepStatus) (n : String) : Option ChainStepStatus :=
  sts.find? (fun ss => ss.name = n)

/-- In-place status update through the `statusMap` pointer. -/
def statusUpdate (sts : List ChainStepStatus) (n : String)
    (f : ChainStepStatus → ChainStepStatus) : List ChainStepStatus :=
  match sts with
  | [] => []
  | ss :: rest => if ss.name = n then f ss :: rest else ss :: statusUpdate rest n f

/-- Result pickup for one running step: NATS poll, retry-or-fail on an
error result, succeed on an output result. -/
def pollStepResult (env : ChainEnv) (c : Chain) (ss : ChainStepStatus) : ChainStepStatus :=
  match env.pollResult c.name ss.name with
  | none => ss
  | some res =>
    if res.error ≠ "" then
      match c.spec.retryPolicy with
      | some rp =>
        if ss.retries < rp.maxRetries then
          { ss with
              retries := ss.retries + 1
              phase := .pending
              completedAt := none
              error := "" }
        else
          { ss with phase := .failed, error := res.error, completedAt := some env.now }
      | none => { ss with phase := .failed, error := res.error, completedAt := some env.now }
    else
      { ss with phase := .succeeded, output := res.output, completedAt := some env.now }

/-- The running-step loop body: per-step timeout first, then result
pickup. -/
def pollStep (env : ChainEnv) (c : Chain) (ss : ChainStepStatus) : ChainStepStatus :=
  if ss.phase = .running then
    match ss.startedAt, specLookup c.spec.steps ss.name with
    | some t, some sp =>
      if env.now - t > sp.timeout * 1000 then
        { ss with
            phase := .failed
            error := "step timed out after " ++ toString sp.timeout ++ "s"
            completedAt := some env.now }
      else pollStepResult env c ss
    | _, _ => pollStepResult env c ss
  else ss

/-- Are all of a step's dependencies Succeeded (or Failed with
`continueOnFailure`)? -/
def depsReady (sts : List ChainStepStatus) (steps : List ChainStep)
    (step : ChainStep) : Bool :=
  step.dependsOn.all (fun dep =>
    match statusLookup sts dep with
    | none => false
    | some ds =>
      match ds.phase with
      | .succeeded => true
      | .failed =>
        match specLookup steps dep with
        | some dsp => dsp.continueOnFailure
        | none => false
      | _ => false)

/-- The retry-backoff gate before dispatch. -/
def backoffApplies (env : ChainEnv) (rp : Option ChainRetryPolicy)
    (ss : ChainStepStatus) : Bool :=
  decide (ss.retries > 0) &&
  (match rp, ss.completedAt with
   | some rp, some t => decide (env.now - t < rp.backoffSeconds * 1000)
   | _, _ => false)

/-- The ready-step dispatch loop body for one spec step. -/
def dispatchStep (env : ChainEnv) (c : Chain)
    (acc : List ChainStepStatus × List Published) (step : ChainStep) :
    List ChainStepStatus × List Published :=
  let sts := acc.1
  match statusLookup sts step.name with
  | none => acc
  | some ss =>
    if ss.phase ≠ .pending then acc
    else if backoffApplies env c.spec.retryPolicy ss then acc
    else if ¬ depsReady sts c.spec.steps step then acc
    else
      match renderTemplate env c.spec.input sts step.task with
      | .error e =>
        (statusUpdate sts step.name (fun s0 =>
          { s0 with
              phase := .failed
              error := "template render error: " ++ e
              completedAt := some env.now }), acc.2)
      | .ok taskStr =>
        match env.knights step.knightRef with
        | none => acc
        | some kn =>
          let taskId := "chain-" ++ c.name ++ "-" ++ step.name ++ "-" ++ toString env.now
          let subject := "fleet-a.tasks." ++ kn.spec.domain ++ "." ++ step.knightRef
          if env.publishOk subject then
            (statusUpdate sts step.name (fun s0 =>
              { s0 with phase := .running, startedAt := some env.now }),
             acc.2 ++ [⟨subject, ⟨taskId, c.name, step.name, taskStr⟩⟩])
          else acc

/-- The ready-step dispatch loop over the spec steps. -/
def dispatchAll (env : ChainEnv) (c : Chain) (sts0 : List ChainStepStatus) :
    List ChainStepStatus × List Published :=
  c.spec.steps.foldl (dispatchStep env c) (sts0, [])

/-- A Failed step that stops the chain (`continueOnFailure` unset, or
no spec entry). -/
def stepFailedHard (steps : List ChainStep) (ss : ChainStepStatus) : Bool :=
  match ss.phase with
  | .failed =>
    match specLookup steps ss.name with
    | some sp => !sp.continueOnFailure
    | none => true
  | _ => false

/-- Is the step phase terminal? -/
def stepTerminal (ss : ChainStepStatus) : Bool :=
  match ss.phase with
  | .succeeded | .failed | .skipped => true
  | _ => false

/-- The outcome of one Chain reconcile: the in-memory chain after the
pass, the bus messages published, the requeue delay and the error
returned to the controller runtime. -/
structure RunOutcome where
  chain : Chain
  published : List Published
  requeueMs : Option Int
  err : Option String

/-- The chain-level timeout failure status. -/
def chainTimeoutStatus (env : ChainEnv) (c : Chain) : ChainStatus :=
  { c.status with
    phase := some .failed
    completedAt := some env.now
    runsFailed := c.status.runsFailed + 1
    conditions := setCondition c.status.conditions
      ⟨"Complete", true, "Timeout",
        "Chain timed out after " ++ toString c.spec.timeout ++ "s"⟩
    observedGeneration := c.generation }

/-- The result-pickup pass: every running step polled. -/
def pollAll (env : ChainEnv) (c : Chain) : List ChainStepStatus :=
  c.status.stepStatuses.map (pollStep env c)

/-- Mark all still-Pending steps Skipped (after a hard step failure). -/
def skipPending (sts : List ChainStepStatus) : List ChainStepStatus :=
  sts.map (fun ss => if ss.phase = .pending then { ss with phase := .skipped } else ss)

/-- The termination handling of `reconcileRunning`: terminal statuses,
conditions and run counters when every step is done, a 5 s requeue
otherwise. -/
def runChainFinish (env : ChainEnv) (c : Chain) (sts3 : List ChainStepStatus)
    (pubs : List Published) (anyFailed allTerminal : Bool) : RunOutcome :=
  if allTerminal then
    { chain :=
        { c with status :=
          { c.status with
            stepStatuses := sts3
            completedAt := some env.now
            phase := some (if anyFailed then .failed else .succeeded)
            runsFailed := c.status.runsFailed + (if anyFailed then 1 else 0)
            runsCompleted := c.status.runsCompleted + (if anyFailed then 0 else 1)
            conditions := setCondition c.status.conditions
              (if anyFailed then
                ⟨"Complete", true, "Failed", "One or more steps failed"⟩
              else
                ⟨"Complete", true, "Succeeded", "All steps completed successfully"⟩)
            observedGeneration := c.generation } }
      published := pubs
      requeueMs := none
      err := none }
  else
    { chain :=
        { c with status :=
          { c.status with
            stepStatuses := sts3
            observedGeneration := c.generation } }
      published := pubs
      requeueMs := some 5000
      err := none }

/-- The poll / dispatch / termination body of `reconcileRunning` (after
the chain-level timeout check). -/
def runChainCore (env : ChainEnv) (c : Chain) : RunOutcome :=
  let sts1 := pollAll env c
  let d := dispatchAll env c sts1
  let sts2 := d.1
  let anyFailed := sts2.any (stepFailedHard c.spec.steps)
  let allTerminal0 := sts2.all stepTerminal
  let sts3 := if anyFailed then skipPending sts2 else sts2
  let stillRunning := sts3.any (fun ss => ss.phase = ChainStepPhase.running)
  let allTerminal := if anyFailed then !stillRunning else allTerminal0
  runChainFinish env c sts3 d.2 anyFailed allTerminal

/-- `ChainReconciler.reconcileRunning`. -/
def reconcileRunning (env : ChainEnv) (c : Chain) : RunOutcome :=
  match c.status.startedAt with
  | some t0 =>
    if env.now - t0 > c.spec.timeout * 1000 then
      { chain := { c with status := chainTimeoutStatus env c }
        published := [], requeueMs := none, err := none }
    else runChainCore env c
  | none => runChainCore env c

/-- The pass of `ChainReconciler.Reconcile` after deletion handling and
finalizer installation: validation (knight refs, then DAG), Valid
condition, schedule bookkeeping (no status effect), suspension, status
initialization, and the phase switch.  Only the Running branch can
publish. -/
def chainReconcileBody (env : ChainEnv) (c1 : Chain) : RunOutcome :=
  match validateKnightRefs env c1 with
    | .error msg =>
      { chain :=
          { c1 with status :=
            { c1.status with
              conditions := setCondition c1.status.conditions
                ⟨"Valid", false, "InvalidKnightRef", msg⟩
              observedGeneration := c1.generation } }
        published := [], requeueMs := none, err := some msg }
    | .ok _ =>
      match validateDAG c1.spec with
      | .error msg =>
        { chain :=
            { c1 with status :=
              { c1.status with
                conditions := setCondition c1.status.conditions
                  ⟨"Valid", false, "CyclicDependency", msg⟩
                observedGeneration := c1.generation } }
          published := [], requeueMs := none, err := some msg }
      | .ok _ =>
        let c2 :=
          { c1 with status :=
            { c1.status with
              conditions := setCondition c1.status.conditions
                ⟨"Valid", true, "Valid", "Chain spec is valid"⟩ } }
        if c2.spec.suspended then
          { chain :=
              { c2 with status :=
                { c2.status with
                    phase := some .suspended
                    observedGeneration := c2.generation } }
            published := [], requeueMs := none, err := none }
        else
          match c2.status.phase with
          | none =>
            { chain :=
                { c2 with status :=
                  { c2.status with
                      phase := some .idle
                      stepStatuses := initStepStatuses c2.spec.steps
                      observedGeneration := c2.generation } }
              published := [], requeueMs := none, err := none }
          | some .running => reconcileRunning env c2
          | some _ =>
            { chain := c2, published := [], requeueMs := none, err := none }

/-- `ChainReconciler.Reconcile`: deletion handling, finalizer install,
then `chainReconcileBody`. -/
def chainReconcile (env : ChainEnv) (c0 : Chain) : RunOutcome :=
  if c0.deletionTimestamp.isSome then
    { chain := { c0 with finalizers := c0.finalizers.filter (fun f => f ≠ chainFinalizer) }
      published := [], requeueMs := none, err := none }
  else
    chainReconcileBody env
      (if c0.finalizers.contains chainFinalizer then c0
       else { c0 with finalizers := c0.finalizers ++ [chainFinalizer] })

/-! ### C8: template rendering is the identity off "{{" -/

/-- C8: a task string not containing "{{" is returned unchanged with no
error, for every pipeline input and step-status state; a task string
containing "{{" is handed to the template engine together with exactly
the pipeline input and the per-step Output/Error rows built from the
current step statuses. -/
theorem renderTemplate_passthrough (env : ChainEnv) (input : String)
    (sts : List ChainStepStatus) (task : String) :
    (strContains task "\x7b\x7b" = false →
      renderTemplate env input sts task = .ok task)
    ∧ (strContains task "\x7b\x7b" = true →
      renderTemplate env input sts task = env.exec ⟨templStepsData sts, input⟩ task) := by
  constructor
  · intro h
    simp [renderTemplate, h]
  · intro h
    simp [renderTemplate, h]

/-- A concrete environment for chain witnesses.  The template engine
prepends the input, standing in for a fixed `text/template` result. -/
def envW : ChainEnv :=
  { knights := fun n => if n = "galahad" then some (knightW "galahad" "0") else none
    pollResult := fun _ _ => none
    exec := fun d t => .ok (d.input ++ t)
    publishOk := fun _ => true
    now := 1000 }

theorem renderTemplate_passthrough_witness :
    renderTemplate envW "seed" [] "plain task" = .ok "plain task"
    ∧ renderTemplate envW "seed" [] "consume {{x}}" = .ok "seedconsume {{x}}" := by
  constructor
  · exact (renderTemplate_passthrough envW "seed" [] "plain task").1 (by decide)
  · exact (renderTemplate_passthrough envW "seed" [] "consume {{x}}").2 (by decide)

/-! ### C1: an invalid chain never publishes -/

/-- When `validateKnightRefs` approves, every step's knight reference
resolves. -/
theorem validateRefsGo_ok_resolves (env : ChainEnv) :
    ∀ steps : List ChainStep, validateRefsGo env steps = .ok () →
      ∀ s ∈ steps, (env.knights s.knightRef).isSome := by
  intro steps
  induction steps with
  | nil => intro _ s hs; cases hs
  | cons a rest ih =>
    intro hok s hs
    unfold validateRefsGo at hok
    cases hk : env.knights a.knightRef with
    | none => rw [hk] at hok; cases hok
    | some k =>
      rw [hk] at hok
      cases hs with
      | head => rw [hk]; rfl
      | tail _ hmem => exact ih hok s hmem

/-- The validation stage blocks every publish: a chain whose spec fails
knight-ref resolution or DAG validation yields no published message
from the body. -/
theorem chainReconcileBody_published_invalid (env : ChainEnv) (c1 : Chain)
    (h : (∃ s ∈ c1.spec.steps, env.knights s.knightRef = none)
       ∨ (∃ m, validateDAG c1.spec = .error m)) :
    (chainReconcileBody env c1).published = [] := by
  unfold chainReconcileBody
  cases hrefs : validateKnightRefs env c1 with
  | error m => rfl
  | ok u =>
    cases u
    have hresolve := validateRefsGo_ok_resolves env c1.spec.steps hrefs
    cases hdag : validateDAG c1.spec with
    | error m => rfl
    | ok u =>
      cases u
      exfalso
      cases h with
      | inl hbad =>
        obtain ⟨s, hmem, hnone⟩ := hbad
        have := hresolve s hmem
        rw [hnone] at this
        cases this
      | inr hbad =>
        obtain ⟨m, hm⟩ := hbad
        rw [hm] at hdag
        cases hdag

/-- C1: a chain with an unresolvable knight reference or an invalid
DAG (a cycle, in particular) publishes no task message: the reconcile
returns from the validation stage before the execution pass. -/
theorem chain_no_dispatch_on_invalid (env : ChainEnv) (c : Chain)
    (h : (∃ s ∈ c.spec.steps, env.knights s.knightRef = none)
       ∨ (∃ m, validateDAG c.spec = .error m)) :
    (chainReconcile env c).published = [] := by
  unfold chainReconcile
  by_cases hdel : c.deletionTimestamp.isSome
  · rw [if_pos hdel]
  · rw [if_neg hdel]
    by_cases hfin : c.finalizers.contains chainFinalizer
    · rw [if_pos hfin]
      exact chainReconcileBody_published_invalid env c h
    · rw [if_neg hfin]
      exact chainReconcileBody_published_invalid env _ h

/-- The S3 cycle chain: two steps depending on each other. -/
def chainCyc : Chain :=
  { name := "s3", nspace := "default", generation := 1
    deletionTimestamp := none, finalizers := [chainFinalizer]
    spec :=
      { description := ""
        steps :=
          [⟨"a", "galahad", "task-a", ["b"], 120, "", false⟩,
           ⟨"b", "galahad", "task-b", ["a"], 120, "", false⟩]
        timeout := 600, schedule := "", input := "", roundTableRef := ""
        suspended := false, retryPolicy := none }
    status := ⟨none, [], none, none, 0, 0, none, 0, []⟩ }

theorem chain_no_dispatch_on_invalid_witness :
    (chainReconcile envW chainCyc).published = [] :=
  chain_no_dispatch_on_invalid envW chainCyc
    (Or.inr ⟨"chain DAG contains a cycle", by rfl⟩)

/-! ### C3: the task publish subject -/

/-- The statuses persisted by the execution pass. -/
def finalStatuses (env : ChainEnv) (c : Chain) : List ChainStepStatus :=
  let sts2 := (dispatchAll env c (pollAll env c)).1
  if sts2.any (stepFailedHard c.spec.steps) then skipPending sts2 else sts2

theorem runChainFinish_published (env : ChainEnv) (c : Chain)
    (sts3 : List ChainStepStatus) (pubs : List Published)
    (anyFailed allTerminal : Bool) :
    (runChainFinish env c sts3 pubs anyFailed allTerminal).published = pubs := by
  unfold runChainFinish
  split <;> rfl

theorem runChainFinish_statuses (env : ChainEnv) (c : Chain)
    (sts3 : List ChainStepStatus) (pubs : List Published)
    (anyFailed allTerminal : Bool) :
    (runChainFinish env c sts3 pubs anyFailed allTerminal).chain.status.stepStatuses
      = sts3 := by
  unfold runChainFinish
  split <;> rfl

theorem runChainCore_published (env : ChainEnv) (c : Chain) :
    (runChainCore env c).published = (dispatchAll env c (pollAll env c)).2 := by
  unfold runChainCore
  dsimp only
  rw [runChainFinish_published]

theorem runChainCore_statuses (env : ChainEnv) (c : Chain) :
    (runChainCore env c).chain.status.stepStatuses = finalStatuses env c := by
  unfold runChainCore
  dsimp only
  rw [runChainFinish_statuses]
  rfl

/-- One dispatch iteration either leaves the publish list alone or
appends exactly one message with the hardcoded `fleet-a` prefix and the
step's envelope. -/
theorem dispatchStep_published_cases (env : ChainEnv) (c : Chain)
    (acc : List ChainStepStatus × List Published) (step : ChainStep) :
    (dispatchStep env c acc step).2 = acc.2 ∨
    ∃ kn taskStr, env.knights step.knightRef = some kn ∧
      (dispatchStep env c acc step).2 = acc.2 ++
        [⟨"fleet-a.tasks." ++ kn.spec.domain ++ "." ++ step.knightRef,
          ⟨"chain-" ++ c.name ++ "-" ++ step.name ++ "-" ++ toString env.now,
           c.name, step.name, taskStr⟩⟩] := by
  unfold dispatchStep
  dsimp only
  cases hls : statusLookup acc.1 step.name with
  | none => exact Or.inl rfl
  | some ss =>
    dsimp only
    split
    · exact Or.inl rfl
    split
    · exact Or.inl rfl
    split
    · exact Or.inl rfl
    split
    · exact Or.inl rfl
    rename_i taskStr _
    cases hk : env.knights step.knightRef with
    | none => exact Or.inl rfl
    | some kn =>
      dsimp only
      split
      · exact Or.inr ⟨kn, taskStr, rfl, rfl⟩
      · exact Or.inl rfl

/-- Every message accumulated by the dispatch fold over `l` was either
already in the accumulator or is the `fleet-a`-prefixed envelope of
some step of `l`. -/
theorem dispatchFold_published_mem (env : ChainEnv) (c : Chain) :
    ∀ (l : List ChainStep) (acc : List ChainStepStatus × List Published)
      (p : Published), p ∈ (l.foldl (dispatchStep env c) acc).2 →
      p ∈ acc.2 ∨ ∃ step ∈ l, ∃ kn taskStr,
        env.knights step.knightRef = some kn ∧
        p = ⟨"fleet-a.tasks." ++ kn.spec.domain ++ "." ++ step.knightRef,
             ⟨"chain-" ++ c.name ++ "-" ++ step.name ++ "-" ++ toString env.now,
              c.name, step.name, taskStr⟩⟩ := by
  intro l
  induction l with
  | nil => intro acc p hp; exact Or.inl hp
  | cons a l ih =>
    intro acc p hp
    rw [List.foldl_cons] at hp
    rcases ih _ p hp with hacc | ⟨step, hmem, rest⟩
    · rcases dispatchStep_published_cases env c acc a with heq | ⟨kn, ts, hk, heq⟩
      · rw [heq] at hacc; exact Or.inl hacc
      · rw [heq] at hacc
        rcases List.mem_append.mp hacc with h1 | h2
        · exact Or.inl h1
        · exact Or.inr ⟨a, List.mem_cons_self a l, kn, ts, hk, List.mem_singleton.mp h2⟩
    · exact Or.inr ⟨step, List.mem_cons_of_mem a hmem, rest⟩

/-- C3 (amended): every task message the executor publishes carries the
envelope `{taskId, chainName, stepName, task}` with
`taskId = chain-<chain>-<step>-<millis>` and goes out on subject
`fleet-a.tasks.<domain>.<agentName>` — the prefix is always the literal
`fleet-a`; the referenced Fleet's subject prefix is never consulted. -/
theorem dispatch_subject_literal (env : ChainEnv) (c : Chain) :
    ∀ p ∈ (reconcileRunning env c).published,
      ∃ step ∈ c.spec.steps, ∃ kn taskStr,
        env.knights step.knightRef = some kn ∧
        p = ⟨"fleet-a.tasks." ++ kn.spec.domain ++ "." ++ step.knightRef,
             ⟨"chain-" ++ c.name ++ "-" ++ step.name ++ "-" ++ toString env.now,
              c.name, step.name, taskStr⟩⟩ := by
  intro p hp
  unfold reconcileRunning at hp
  have core : p ∈ (runChainCore env c).published →
      ∃ step ∈ c.spec.steps, ∃ kn taskStr,
        env.knights step.knightRef = some kn ∧
        p = ⟨"fleet-a.tasks." ++ kn.spec.domain ++ "." ++ step.knightRef,
             ⟨"chain-" ++ c.name ++ "-" ++ step.name ++ "-" ++ toString env.now,
              c.name, step.name, taskStr⟩⟩ := by
    intro hc
    rw [runChainCore_published] at hc
    unfold dispatchAll at hc
    rcases dispatchFold_published_mem env c c.spec.steps _ p hc with h0 | h
    · cases h0
    · exact h
  cases hst : c.status.startedAt with
  | none => rw [hst] at hp; exact core hp
  | some t =>
    rw [hst] at hp
    dsimp only at hp
    by_cases hto : env.now - t > c.spec.timeout * 1000
    · rw [if_pos hto] at hp
      cases hp
    · rw [if_neg hto] at hp
      exact core hp

/-- The subject the claim prescribes, following the spec's words: the
prefix is the referenced Fleet's subject prefix when the Pipeline
references a Fleet, else the literal `fleet-a` (a refinement-comparison
definition, not translated from the Go code). -/
def specTaskSubject (fleets : String → Option RT) (c : Chain)
    (domain agentName : String) : String :=
  (match fleets c.spec.roundTableRef with
   | some rt => rt.spec.nats.subjectPfx
   | none => "fleet-a") ++ ".tasks." ++ domain ++ "." ++ agentName

/-- A running chain with one dispatchable step. -/
def chainRun : Chain :=
  { name := "run", nspace := "default", generation := 1
    deletionTimestamp := none, finalizers := [chainFinalizer]
    spec :=
      { description := ""
        steps := [⟨"scan", "galahad", "scan the network", [], 120, "", false⟩]
        timeout := 600, schedule := "", input := "", roundTableRef := ""
        suspended := false, retryPolicy := none }
    status :=
      { phase := some .running
        stepStatuses := [⟨"scan", .pending, none, none, "", "", 0⟩]
        startedAt := some 0, completedAt := none
        runsCompleted := 0, runsFailed := 0, lastScheduledAt := none
        observedGeneration := 0, conditions := [] } }

/-- `chainRun` pointed at a Fleet whose subject prefix is `camelot`. -/
def chainFleetRef : Chain :=
  { chainRun with spec := { chainRun.spec with roundTableRef := "camelot" } }

/-- A fleet lookup resolving `camelot` to the fleet `rtW` (whose
`subjectPrefix` is `camelot`). -/
def fleetsW : String → Option RT := fun n => if n = "camelot" then some rtW else none

/-- C3 counterexample: for a chain that references a Fleet with subject
prefix `camelot`, the executor still publishes on the `fleet-a.` prefix,
not on the subject the claim prescribes. -/
theorem dispatch_subject_counterexample :
    (reconcileRunning envW chainFleetRef).published.map Published.subject
      = ["fleet-a.tasks.security.galahad"]
    ∧ specTaskSubject fleetsW chainFleetRef "security" "galahad"
      = "camelot.tasks.security.galahad"
    ∧ ("fleet-a.tasks.security.galahad" : String)
      ≠ "camelot.tasks.security.galahad" := by
  refine ⟨by rfl, by rfl, by decide⟩

theorem dispatch_subject_literal_witness :
    ∃ step ∈ chainRun.spec.steps, ∃ kn taskStr,
      envW.knights step.knightRef = some kn ∧
      (⟨"fleet-a.tasks.security.galahad",
        ⟨"chain-run-scan-1000", "run", "scan", "scan the network"⟩⟩ : Published)
      = ⟨"fleet-a.tasks." ++ kn.spec.domain ++ "." ++ step.knightRef,
         ⟨"chain-" ++ chainRun.name ++ "-" ++ step.name ++ "-" ++ toString envW.now,
          chainRun.name, step.name, taskStr⟩⟩ :=
  dispatch_subject_literal envW chainRun
    ⟨"fleet-a.tasks.security.galahad",
      ⟨"chain-run-scan-1000", "run", "scan", "scan the network"⟩⟩
    (by
      have h : (reconcileRunning envW chainRun).published =
          [⟨"fleet-a.tasks.security.galahad",
            ⟨"chain-run-scan-1000", "run", "scan", "scan the network"⟩⟩] := rfl
      rw [h]
      exact List.mem_singleton.mpr rfl)

/-! ### C5: the retry cap -/

theorem pollStepResult_retries_le (env : ChainEnv) (c : Chain)
    (rp : ChainRetryPolicy) (hrp : c.spec.retryPolicy = some rp)
    (ss : ChainStepStatus) (h : ss.retries ≤ rp.maxRetries) :
    (pollStepResult env c ss).retries ≤ rp.maxRetries := by
  unfold pollStepResult
  cases env.pollResult c.name ss.name with
  | none => exact h
  | some res =>
    dsimp only
    split
    · rw [hrp]
      dsimp only
      split
      · rename_i hlt
        dsimp only
        omega
      · exact h
    · exact h

theorem pollStep_retries_le (env : ChainEnv) (c : Chain)
    (rp : ChainRetryPolicy) (hrp : c.spec.retryPolicy = some rp)
    (ss : ChainStepStatus) (h : ss.retries ≤ rp.maxRetries) :
    (pollStep env c ss).retries ≤ rp.maxRetries := by
  unfold pollStep
  by_cases hph : ss.phase = .running
  · rw [if_pos hph]
    cases hsa : ss.startedAt with
    | none =>
      cases hsl : specLookup c.spec.steps ss.name <;>
        exact pollStepResult_retries_le env c rp hrp ss h
    | some t =>
      cases hsl : specLookup c.spec.steps ss.name with
      | none => exact pollStepResult_retries_le env c rp hrp ss h
      | some sp =>
        dsimp only
        split
        · exact h
        · exact pollStepResult_retries_le env c rp hrp ss h
  · rw [if_neg hph]
    exact h

/-- Every element of an updated status list is an original element or
the image of the updated one. -/
theorem statusUpdate_mem (f : ChainStepStatus → ChainStepStatus) :
    ∀ (sts : List ChainStepStatus) (n : String),
      ∀ ss ∈ statusUpdate sts n f, ss ∈ sts ∨ ∃ s0, s0 ∈ sts ∧ ss = f s0 := by
  intro sts
  induction sts with
  | nil => intro n ss hss; cases hss
  | cons a rest ih =>
    intro n ss hss
    unfold statusUpdate at hss
    by_cases ha : a.name = n
    · rw [if_pos ha] at hss
      cases hss with
      | head => exact Or.inr ⟨a, List.mem_cons_self a rest, rfl⟩
      | tail _ hmem => exact Or.inl (List.mem_cons_of_mem a hmem)
    · rw [if_neg ha] at hss
      cases hss with
      | head => exact Or.inl (List.mem_cons_self a rest)
      | tail _ hmem =>
        rcases ih n ss hmem with h1 | ⟨s0, hs0, rfl⟩
        · exact Or.inl (List.mem_cons_of_mem a h1)
        · exact Or.inr ⟨s0, List.mem_cons_of_mem a hs0, rfl⟩

theorem dispatchStep_retries_pres (env : ChainEnv) (c : Chain) (B : Int)
    (acc : List ChainStepStatus × List Published) (step : ChainStep)
    (h : ∀ ss ∈ acc.1, ss.retries ≤ B) :
    ∀ ss ∈ (dispatchStep env c acc step).1, ss.retries ≤ B := by
  unfold dispatchStep
  dsimp only
  cases hls : statusLookup acc.1 step.name with
  | none => exact h
  | some ss0 =>
    dsimp only
    split
    · exact h
    split
    · exact h
    split
    · exact h
    split
    · intro ss hss
      rcases statusUpdate_mem _ acc.1 step.name ss hss with h1 | ⟨s0, hs0, rfl⟩
      · exact h ss h1
      · exact h s0 hs0
    cases env.knights step.knightRef with
    | none => exact h
    | some kn =>
      dsimp only
      split
      · intro ss hss
        rcases statusUpdate_mem _ acc.1 step.name ss hss with h1 | ⟨s0, hs0, rfl⟩
        · exact h ss h1
        · exact h s0 hs0
      · exact h

theorem dispatchFold_retries_pres (env : ChainEnv) (c : Chain) (B : Int) :
    ∀ (l : List ChainStep) (acc : List ChainStepStatus × List Published),
      (∀ ss ∈ acc.1, ss.retries ≤ B) →
      ∀ ss ∈ (l.foldl (dispatchStep env c) acc).1, ss.retries ≤ B := by
  intro l
  induction l with
  | nil => intro acc h; exact h
  | cons a l ih =>
    intro acc h
    rw [List.foldl_cons]
    exact ih _ (dispatchStep_retries_pres env c B acc a h)

theorem skipPending_retries_pres (B : Int) (sts : List ChainStepStatus)
    (h : ∀ ss ∈ sts, ss.retries ≤ B) :
    ∀ ss ∈ skipPending sts, ss.retries ≤ B := by
  intro ss hss
  unfold skipPending at hss
  obtain ⟨a, ha, rfl⟩ := List.mem_map.mp hss
  by_cases hp : a.phase = .pending
  · rw [if_pos hp]
    exact h a ha
  · rw [if_neg hp]
    exact h a ha

/-- C5: with a retry policy in force, a run of the execution pass never
pushes a step's retry counter past `maxRetries`: if every step status
satisfies `retries ≤ maxRetries` before the reconcile, every step
status after it does too (a failed step is reset to Pending with an
increment only while `retries < maxRetries`). -/
theorem chain_retry_cap (env : ChainEnv) (c : Chain) (rp : ChainRetryPolicy)
    (hrp : c.spec.retryPolicy = some rp)
    (hinv : ∀ ss ∈ c.status.stepStatuses, ss.retries ≤ rp.maxRetries) :
    ∀ ss ∈ (reconcileRunning env c).chain.status.stepStatuses,
      ss.retries ≤ rp.maxRetries := by
  have hcore : ∀ ss ∈ (runChainCore env c).chain.status.stepStatuses,
      ss.retries ≤ rp.maxRetries := by
    intro ss hss
    rw [runChainCore_statuses] at hss
    unfold finalStatuses at hss
    dsimp only at hss
    have hsts1 : ∀ ss ∈ pollAll env c, ss.retries ≤ rp.maxRetries := by
      intro ss hss
      unfold pollAll at hss
      obtain ⟨a, ha, rfl⟩ := List.mem_map.mp hss
      exact pollStep_retries_le env c rp hrp a (hinv a ha)
    have hsts2 : ∀ ss ∈ (dispatchAll env c (pollAll env c)).1,
        ss.retries ≤ rp.maxRetries := by
      unfold dispatchAll
      exact dispatchFold_retries_pres env c rp.maxRetries c.spec.steps
        (pollAll env c, []) hsts1
    split at hss
    · exact skipPending_retries_pres rp.maxRetries _ hsts2 ss hss
    · exact hsts2 ss hss
  intro ss hss
  unfold reconcileRunning at hss
  cases hst : c.status.startedAt with
  | none =>
    rw [hst] at hss
    exact hcore ss hss
  | some t =>
    rw [hst] at hss
    dsimp only at hss
    by_cases hto : env.now - t > c.spec.timeout * 1000
    · rw [if_pos hto] at hss
      exact hinv ss hss
    · rw [if_neg hto] at hss
      exact hcore ss hss

/-- An environment whose result poll always reports an error. -/
def envR : ChainEnv :=
  { envW with pollResult := fun _ _ => some ⟨"", "", "boom"⟩ }

/-- `chainRun` with a retry policy and a running step already at the
retry cap. -/
def chainRetry : Chain :=
  { chainRun with
    spec := { chainRun.spec with retryPolicy := some ⟨2, 30⟩ }
    status :=
      { chainRun.status with
        stepStatuses := [⟨"scan", .running, some 0, none, "", "", 2⟩] } }

theorem chain_retry_cap_witness :
    (⟨"scan", .failed, some 0, some 1000, "", "boom", 2⟩ : ChainStepStatus).retries ≤ 2 :=
  chain_retry_cap envR chainRetry ⟨2, 30⟩ rfl (by decide) _ (by decide)

/-! ## Mission data model — `mission_types.go` -/

/-- `MissionKnight` (`ephemeralSpec` kept as presence only). -/
structure MissionKnight where
  name : String
  role : String
  ephemeral : Bool
  ephemeralSpec : Option KnightSpec
deriving Repr, DecidableEq

/-- `MissionChainRef`. -/
structure MissionChainRef where
  name : String
  inputOverride : String
  phase : String
deriving Repr, DecidableEq

/-- `MissionSpec`. -/
structure MissionSpec where
  objective : String
  successCriteria : String
  knights : List MissionKnight
  chains : List MissionChainRef
  ttl : Int
  timeout : Int
  natsPfx : String
  roundTableRef : String
  cleanupPolicy : String
  briefing : String
deriving Repr, DecidableEq

/-- `MissionPhase` (`none` in the status models the empty string). -/
inductive MissionPhase where
  | assembling
  | briefing
  | active
  | succeeded
  | failed
  | expired
  | cleaningUp
deriving Repr, DecidableEq

/-- `MissionKnightStatus`. -/
structure MissionKnightStatus where
  name : String
  ready : Bool
  tasksCompleted : Int
  ephemeral : Bool
deriving Repr, DecidableEq

/-- `MissionStatus`.  Times are integer seconds. -/
structure MissionStatus where
  phase : Option MissionPhase
  knightStatuses : List MissionKnightStatus
  startedAt : Option Int
  completedAt : Option Int
  expiresAt : Option Int
  result : String
  totalCost : String
  observedGeneration : Int
  conditions : List Condition
deriving Repr, DecidableEq

/-- A Mission resource with the metadata the reconciler reads. -/
structure Mission where
  name : String
  nspace : String
  generation : Int
  deletionTimestamp : Option Int
  finalizers : List String
  spec : MissionSpec
  status : MissionStatus
deriving Repr, DecidableEq

/-- The environment of a Mission reconcile: the cluster reads, briefing
publication success, and the wall clock in seconds. -/
structure MissionEnv where
  knights : String → Option Knight
  chains : String → Option Chain
  publishOk : Bool
  now : Int

/-- The finalizer string installed by the Mission reconciler. -/
def missionFinalizer : String := "ai.roundtable.io/mission-finalizer"

/-- Outcome of a Mission reconcile: the in-memory mission, the trace of
status updates in order, whether the mission deleted itself, the
teardown chains it triggered, and the requeue delay. -/
structure MissionOutcome where
  mission : Mission
  statusTrace : List MissionStatus
  deleted : Bool
  triggeredChains : List String
  requeueSec : Option Int

/-! ### Mission reconciler — `mission_controller.go` -/

/-- Set the `ready` bit of the i-th knight status (in-place index write;
out-of-range is unreachable for initialized statuses). -/
def setKnightReady (sts : List MissionKnightStatus) (i : Nat) (b : Bool) :
    List MissionKnightStatus :=
  match sts, i with
  | [], _ => []
  | s :: rest, 0 => { s with ready := b } :: rest
  | s :: rest, i + 1 => s :: setKnightReady rest i b

/-- The knight loop of `reconcileAssembling` over the indexed knights:
ephemeral knights are marked not-ready and clear `allReady`; a missing
knight aborts with its name and the statuses written so far; otherwise
readiness is recorded.  Returns the final statuses and `allReady`. -/
def assembleLoop (env : MissionEnv) :
    List (Nat × MissionKnight) → List MissionKnightStatus → Bool →
    Except (String × List MissionKnightStatus) (List MissionKnightStatus × Bool)
  | [], sts, allReady => .ok (sts, allReady)
  | (i, mk) :: rest, sts, allReady =>
    if mk.ephemeral then
      assembleLoop env rest (setKnightReady sts i false) false
    else
      match env.knights mk.name with
      | none => .error (mk.name, sts)
      | some kn =>
        if kn.status.phase = .ready ∧ kn.status.ready then
          assembleLoop env rest (setKnightReady sts i true) allReady
        else
          assembleLoop env rest (setKnightReady sts i false) false

/-- `MissionReconciler.reconcileAssembling`. -/
def reconcileAssembling (env : MissionEnv) (m : Mission) : MissionOutcome :=
  match assembleLoop env m.spec.knights.enum m.status.knightStatuses true with
  | .error ks =>
    let st :=
      { m.status with
        knightStatuses := ks.2
        conditions := setCondition m.status.conditions
          ⟨"KnightsReady", false, "KnightNotFound",
            "Knight \"" ++ ks.1 ++ "\" not found"⟩
        observedGeneration := m.generation }
    { mission := { m with status := st }, statusTrace := [st], deleted := false
      triggeredChains := [], requeueSec := some 10 }
  | .ok sr =>
    if sr.2 ∧ m.spec.knights.length > 0 then
      if m.spec.knights.all (fun mk => mk.ephemeral) then
        let st :=
          { m.status with
            knightStatuses := sr.1
            conditions := setCondition m.status.conditions
              ⟨"KnightsReady", false, "NoValidKnights",
                "All knights are ephemeral (not supported in v1)"⟩
            phase := some .failed
            completedAt := some env.now
            result := "No valid knights available"
            observedGeneration := m.generation }
        { mission := { m with status := st }, statusTrace := [st], deleted := false
          triggeredChains := [], requeueSec := none }
      else
        let st :=
          { m.status with
            knightStatuses := sr.1
            conditions := setCondition m.status.conditions
              ⟨"KnightsReady", true, "AllKnightsReady",
                "All referenced knights are ready"⟩
            phase := some .briefing
            observedGeneration := m.generation }
        { mission := { m with status := st }, statusTrace := [st], deleted := false
          triggeredChains := [], requeueSec := some 1 }
    else
      let st :=
        { m.status with
          knightStatuses := sr.1
          observedGeneration := m.generation }
      { mission := { m with status := st }, statusTrace := [st], deleted := false
        triggeredChains := [], requeueSec := some 5 }

/-- `MissionReconciler.reconcileBriefing`. -/
def reconcileBriefing (env : MissionEnv) (m : Mission) : MissionOutcome :=
  if m.spec.briefing ≠ "" then
    if env.publishOk then
      let st :=
        { m.status with
          conditions := setCondition m.status.conditions
            ⟨"BriefingPublished", true, "Published",
              "Mission briefing published to all knights"⟩
          phase := some .active
          observedGeneration := m.generation }
      { mission := { m with status := st }, statusTrace := [st], deleted := false
        triggeredChains := [], requeueSec := some 1 }
    else
      let st :=
        { m.status with
          conditions := setCondition m.status.conditions
            ⟨"BriefingPublished", false, "PublishFailed",
              "Failed to publish briefing"⟩
          observedGeneration := m.generation }
      { mission := { m with status := st }, statusTrace := [st], deleted := false
        triggeredChains := [], requeueSec := some 5 }
  else
    let st :=
      { m.status with
        conditions := setCondition m.status.conditions
          ⟨"BriefingPublished", true, "NoBriefing", "No briefing text configured"⟩
        phase := some .active
        observedGeneration := m.generation }
    { mission := { m with status := st }, statusTrace := [st], deleted := false
      triggeredChains := [], requeueSec := some 1 }

/-- `reconcileMissionChains`: fold over the Setup/Active chain refs,
returning `(allComplete, anyFailed)`. -/
def missionChainsScan (env : MissionEnv) (m : Mission) : Bool × Bool :=
  m.spec.chains.foldl (fun acc ref =>
    if ref.phase = "Setup" ∨ ref.phase = "Active" then
      match env.chains ref.name with
      | none => (acc.1, true)
      | some ch =>
        match ch.status.phase with
        | some .succeeded => acc
        | some .failed => (acc.1, true)
        | _ => (false, acc.2)
    else acc) (true, false)

/-- `updateKnightStatuses`: refresh readiness of non-ephemeral knights. -/
def updateKnightLoop (env : MissionEnv) :
    List (Nat × MissionKnight) → List MissionKnightStatus → List MissionKnightStatus
  | [], sts => sts
  | (i, mk) :: rest, sts =>
    if mk.ephemeral then updateKnightLoop env rest sts
    else
      match env.knights mk.name with
      | none => updateKnightLoop env rest (setKnightReady sts i false)
      | some kn => updateKnightLoop env rest (setKnightReady sts i kn.status.ready)

/-- The chain-monitoring part of `reconcileActive` (after the timeout
check). -/
def reconcileActiveChains (env : MissionEnv) (m : Mission) : MissionOutcome :=
  if m.spec.chains.length > 0 then
    let r := missionChainsScan env m
    if r.2 then
      let st :=
        { m.status with
          phase := some .failed
          completedAt := some env.now
          result := "One or more mission chains failed"
          conditions := setCondition m.status.conditions
            ⟨"Complete", true, "ChainFailed", "One or more mission chains failed"⟩
          observedGeneration := m.generation }
      { mission := { m with status := st }, statusTrace := [st], deleted := false
        triggeredChains := [], requeueSec := none }
    else if r.1 then
      let st :=
        { m.status with
          phase := some .succeeded
          completedAt := some env.now
          result := "All mission chains completed successfully"
          conditions := setCondition m.status.conditions
            ⟨"Complete", true, "Succeeded", "All mission chains completed successfully"⟩
          observedGeneration := m.generation }
      { mission := { m with status := st }, statusTrace := [st], deleted := false
        triggeredChains := [], requeueSec := none }
    else
      let st :=
        { m.status with
          knightStatuses := updateKnightLoop env m.spec.knights.enum m.status.knightStatuses
          observedGeneration := m.generation }
      { mission := { m with status := st }, statusTrace := [st], deleted := false
        triggeredChains := [], requeueSec := some 5 }
  else
    let st :=
      { m.status with
        phase := some .succeeded
        completedAt := some env.now
        result := "Mission completed (briefing-only)"
        conditions := setCondition m.status.conditions
          ⟨"Complete", true, "Succeeded", "Briefing-only mission completed"⟩
        observedGeneration := m.generation }
    { mission := { m with status := st }, statusTrace := [st], deleted := false
      triggeredChains := [], requeueSec := none }

/-- `MissionReconciler.reconcileActive`. -/
def reconcileActive (env : MissionEnv) (m : Mission) : MissionOutcome :=
  match m.status.startedAt with
  | some t0 =>
    if env.now - t0 > m.spec.timeout then
      let st :=
        { m.status with
          phase := some .failed
          completedAt := some env.now
          result := "Mission timed out after " ++ toString m.spec.timeout ++ "s"
          conditions := setCondition m.status.conditions
            ⟨"Complete", true, "Timeout",
              "Mission timed out after " ++ toString m.spec.timeout ++ "s"⟩
          observedGeneration := m.generation }
      { mission := { m with status := st }, statusTrace := [st], deleted := false
        triggeredChains := [], requeueSec := none }
    else reconcileActiveChains env m
  | none => reconcileActiveChains env m

/-- What the teardown-chain loop of `reconcileCleaningUp` decides. -/
inductive TeardownScan where
  | proceed
  | wait
  | trigger (chainName : String)
deriving Repr, DecidableEq

/-- The teardown-chain loop: the first Idle teardown chain is
triggered; a Running one makes the reconcile wait; otherwise cleanup
proceeds. -/
def teardownScan (env : MissionEnv) : List MissionChainRef → TeardownScan
  | [] => .proceed
  | ref :: rest =>
    if ref.phase ≠ "Teardown" then teardownScan env rest
    else
      match env.chains ref.name with
      | none => teardownScan env rest
      | some ch =>
        match ch.status.phase with
        | some .idle => .trigger ref.name
        | some .running => .wait
        | _ => teardownScan env rest

/-- The self-deletion gate of `reconcileCleaningUp`. -/
def cleanupDeleteDue (env : MissionEnv) (m : Mission) : Bool :=
  decide (m.spec.cleanupPolicy = "Delete") &&
  (match m.status.expiresAt with
   | some t => decide (env.now > t)
   | none => false)

/-- `MissionReconciler.reconcileCleaningUp`. -/
def reconcileCleaningUp (env : MissionEnv) (m : Mission) : MissionOutcome :=
  match teardownScan env m.spec.chains with
  | .trigger name =>
    { mission := m, statusTrace := [], deleted := false
      triggeredChains := [name], requeueSec := some 5 }
  | .wait =>
    { mission := m, statusTrace := [], deleted := false
      triggeredChains := [], requeueSec := some 5 }
  | .proceed =>
    if cleanupDeleteDue env m then
      { mission := m, statusTrace := [], deleted := true
        triggeredChains := [], requeueSec := none }
    else
      let st :=
        { m.status with
          conditions := setCondition m.status.conditions
            ⟨"CleanupComplete", true, "CleanedUp", "Mission cleanup completed"⟩
          observedGeneration := m.generation }
      { mission := { m with status := st }, statusTrace := [st], deleted := false
        triggeredChains := []
        requeueSec :=
          if m.spec.cleanupPolicy = "Delete" then
            match m.status.expiresAt with
            | some t => if t - env.now > 0 then some (t - env.now) else none
            | none => none
          else none }

/-- The phase switch of `MissionReconciler.Reconcile`. -/
def missionSwitch (env : MissionEnv) (m : Mission) (p : MissionPhase) : MissionOutcome :=
  match p with
  | .assembling => reconcileAssembling env m
  | .briefing => reconcileBriefing env m
  | .active => reconcileActive env m
  | .succeeded | .failed =>
    let st := { m.status with phase := some .cleaningUp, observedGeneration := m.generation }
    { mission := { m with status := st }, statusTrace := [st], deleted := false
      triggeredChains := [], requeueSec := some 5 }
  | .cleaningUp => reconcileCleaningUp env m
  | .expired =>
    let st := { m.status with phase := some .cleaningUp }
    { mission := { m with status := st }, statusTrace := [st], deleted := false
      triggeredChains := [], requeueSec := some 5 }

/-- The TTL-expiration check applied before the phase switch: past
`expiresAt` and not already Expired or CleaningUp, the phase goes to
Expired (one status update), then to CleaningUp (a second one). -/
def missionTTLCheck (env : MissionEnv) (m : Mission) (p : MissionPhase) : MissionOutcome :=
  match m.status.expiresAt with
  | some t =>
    if env.now > t ∧ p ≠ .cleaningUp ∧ p ≠ .expired then
      let st1 :=
        { m.status with
          phase := some .expired
          completedAt := some env.now
          result := "Mission expired (TTL exceeded)"
          conditions := setCondition m.status.conditions
            ⟨"Complete", true, "Expired", "Mission TTL expired"⟩
          observedGeneration := m.generation }
      let st2 := { st1 with phase := some .cleaningUp }
      { mission := { m with status := st2 }, statusTrace := [st1, st2], deleted := false
        triggeredChains := [], requeueSec := some 5 }
    else missionSwitch env m p
  | none => missionSwitch env m p

/-- The pass of `MissionReconciler.Reconcile` after deletion handling
and finalizer installation: status initialization (phase Assembling,
`startedAt = now`, `expiresAt = startedAt + TTL`), the TTL check, then
the phase switch. -/
def missionReconcileBody (env : MissionEnv) (m : Mission) : MissionOutcome :=
  match m.status.phase with
  | none =>
    let st :=
      { m.status with
        phase := some .assembling
        startedAt := some env.now
        expiresAt := some (env.now + m.spec.ttl)
        knightStatuses := m.spec.knights.map (fun mk => ⟨mk.name, false, 0, mk.ephemeral⟩)
        observedGeneration := m.generation }
    { mission := { m with status := st }, statusTrace := [st], deleted := false
      triggeredChains := [], requeueSec := none }
  | some p => missionTTLCheck env m p

/-- `MissionReconciler.Reconcile`: deletion handling, finalizer
install, then `missionReconcileBody`. -/
def missionReconcile (env : MissionEnv) (m0 : Mission) : MissionOutcome :=
  if m0.deletionTimestamp.isSome then
    { mission := { m0 with finalizers := m0.finalizers.filter (fun f => f ≠ missionFinalizer) }
      statusTrace := [], deleted := false, triggeredChains := [], requeueSec := none }
  else
    missionReconcileBody env
      (if m0.finalizers.contains missionFinalizer then m0
       else { m0 with finalizers := m0.finalizers ++ [missionFinalizer] })

/-! ### C2: ephemeral knights and the readiness gate -/

/-- Once `allReady` is false it stays false through the knight loop. -/
theorem assembleLoop_ok_false (env : MissionEnv) :
    ∀ (ks : List (Nat × MissionKnight)) (sts sts' : List MissionKnightStatus)
      (ar' : Bool), assembleLoop env ks sts false = .ok (sts', ar') → ar' = false := by
  intro ks
  induction ks with
  | nil =>
    intro sts sts' ar' h
    unfold assembleLoop at h
    injection h with hpair
    injection hpair with h1 h2
    exact h2.symm
  | cons q rest ih =>
    intro sts sts' ar' h
    obtain ⟨i, mk⟩ := q
    unfold assembleLoop at h
    by_cases he : mk.ephemeral
    · rw [if_pos he] at h
      exact ih _ _ _ h
    · rw [if_neg he] at h
      cases hk : env.knights mk.name with
      | none => rw [hk] at h; exact Except.noConfusion h
      | some kn =>
        rw [hk] at h
        dsimp only at h
        by_cases hr : kn.status.phase = .ready ∧ kn.status.ready
        · rw [if_pos hr] at h
          exact ih _ _ _ h
        · rw [if_neg hr] at h
          exact ih _ _ _ h

/-- Any ephemeral knight in the loop forces the outcome to be either an
abort (missing knight) or `allReady = false`. -/
theorem assembleLoop_ephemeral (env : MissionEnv) :
    ∀ (ks : List (Nat × MissionKnight)) (sts : List MissionKnightStatus) (ar : Bool),
      (∃ p ∈ ks, p.2.ephemeral = true) →
      (∃ e, assembleLoop env ks sts ar = .error e) ∨
      (∃ sts', assembleLoop env ks sts ar = .ok (sts', false)) := by
  intro ks
  induction ks with
  | nil =>
    intro sts ar h
    obtain ⟨p, hp, _⟩ := h
    cases hp
  | cons q rest ih =>
    intro sts ar h
    obtain ⟨i, mk⟩ := q
    by_cases he : mk.ephemeral
    · have heq : assembleLoop env ((i, mk) :: rest) sts ar =
          assembleLoop env rest (setKnightReady sts i false) false := by
        conv_lhs => unfold assembleLoop
        rw [if_pos he]
      rw [heq]
      cases hres : assembleLoop env rest (setKnightReady sts i false) false with
      | error e => exact Or.inl ⟨e, rfl⟩
      | ok pr =>
        obtain ⟨sts', ar'⟩ := pr
        have har := assembleLoop_ok_false env rest _ _ _ hres
        subst har
        exact Or.inr ⟨sts', rfl⟩
    · have hrest : ∃ p ∈ rest, p.2.ephemeral = true := by
        obtain ⟨p, hp, hpe⟩ := h
        cases hp with
        | head => exact absurd hpe (by simp [he])
        | tail _ hmem => exact ⟨p, hmem, hpe⟩
      cases hk : env.knights mk.name with
      | none =>
        refine Or.inl ⟨(mk.name, sts), ?_⟩
        conv_lhs => unfold assembleLoop
        rw [if_neg he, hk]
      | some kn =>
        by_cases hr : kn.status.phase = .ready ∧ kn.status.ready
        · have heq : assembleLoop env ((i, mk) :: rest) sts ar =
              assembleLoop env rest (setKnightReady sts i true) ar := by
            conv_lhs => unfold assembleLoop
            rw [if_neg he, hk]
            dsimp only
            rw [if_pos hr]
          rw [heq]
          exact ih _ ar hrest
        · have heq : assembleLoop env ((i, mk) :: rest) sts ar =
              assembleLoop env rest (setKnightReady sts i false) false := by
            conv_lhs => unfold assembleLoop
            rw [if_neg he, hk]
            dsimp only
            rw [if_neg hr]
          rw [heq]
          exact ih _ false hrest

/-- A member of a list appears in its `enumFrom` at some index. -/
theorem mem_enumFrom_of_mem :
    ∀ (l : List MissionKnight) (mk : MissionKnight) (n : Nat),
      mk ∈ l → ∃ i, (i, mk) ∈ l.enumFrom n := by
  intro l
  induction l with
  | nil => intro mk n h; cases h
  | cons a rest ih =>
    intro mk n h
    cases h with
    | head => exact ⟨n, List.mem_cons_self _ _⟩
    | tail _ hmem =>
      obtain ⟨i, hi⟩ := ih mk (n + 1) hmem
      exact ⟨i, List.mem_cons_of_mem _ hi⟩

/-- C2 refuted on the code: an ephemeral participant always clears
`allReady`, so the Assembling phase never changes while any ephemeral
knight is present — neither to Briefing (readiness gate blocked) nor to
Failed (the all-ephemeral Failed branch is unreachable dead code,
guarded by `allReady` which ephemerals force to false). -/
theorem mission_ephemeral_blocks_gate (env : MissionEnv) (m : Mission)
    (h : ∃ mk ∈ m.spec.knights, mk.ephemeral = true) :
    (reconcileAssembling env m).mission.status.phase = m.status.phase := by
  obtain ⟨mk, hmem, he⟩ := h
  obtain ⟨i, hi⟩ := mem_enumFrom_of_mem m.spec.knights mk 0 hmem
  have henum : ∃ p ∈ m.spec.knights.enum, p.2.ephemeral = true := ⟨(i, mk), hi, he⟩
  unfold reconcileAssembling
  rcases assembleLoop_ephemeral env m.spec.knights.enum m.status.knightStatuses true henum
    with ⟨e, heq⟩ | ⟨sts', heq⟩
  · rw [heq]
  · rw [heq]
    dsimp only
    rw [if_neg (by simp)]

/-- A ready, non-suspended knight for mission witnesses. -/
def knightReady : Knight := knightW "lancelot" "0"

/-- The mission-witness environment: only `lancelot` exists, no chains,
briefing publication succeeds, clock at 100 s. -/
def envM : MissionEnv :=
  { knights := fun n => if n = "lancelot" then some knightReady else none
    chains := fun _ => none
    publishOk := true
    now := 100 }

/-- An Assembling mission whose participants are all ephemeral. -/
def missionAllEph : Mission :=
  { name := "m1", nspace := "default", generation := 1
    deletionTimestamp := none, finalizers := [missionFinalizer]
    spec :=
      { objective := "obj", successCriteria := ""
        knights := [⟨"ghost", "lead", true, none⟩, ⟨"wraith", "", true, none⟩]
        chains := [], ttl := 3600, timeout := 1800, natsPfx := ""
        roundTableRef := "", cleanupPolicy := "Delete", briefing := "" }
    status :=
      { phase := some .assembling
        knightStatuses := [⟨"ghost", false, 0, true⟩, ⟨"wraith", false, 0, true⟩]
        startedAt := some 0, completedAt := none, expiresAt := some 3600
        result := "", totalCost := "", observedGeneration := 1, conditions := [] } }

theorem mission_ephemeral_blocks_gate_witness :
    (reconcileAssembling envM missionAllEph).mission.status.phase =
      some MissionPhase.assembling := by
  rw [mission_ephemeral_blocks_gate envM missionAllEph
    ⟨⟨"ghost", "lead", true, none⟩, by decide, rfl⟩]
  rfl

/-! ### C7: TTL expiry and cleanup -/

/-- When every teardown chain is absent or beyond Idle/Running, the
teardown loop proceeds to the deletion gate. -/
theorem teardownScan_proceed (env : MissionEnv) :
    ∀ (l : List MissionChainRef),
      (∀ ref ∈ l, ref.phase = "Teardown" → ∀ ch, env.chains ref.name = some ch →
        ch.status.phase ≠ some ChainPhase.idle ∧
        ch.status.phase ≠ some ChainPhase.running) →
      teardownScan env l = .proceed := by
  intro l
  induction l with
  | nil => intro _; rfl
  | cons ref rest ih =>
    intro h
    unfold teardownScan
    by_cases hp : ref.phase ≠ "Teardown"
    · rw [if_pos hp]
      exact ih (fun r hr => h r (List.mem_cons_of_mem _ hr))
    · rw [if_neg hp]
      push_neg at hp
      cases hc : env.chains ref.name with
      | none =>
        dsimp only
        exact ih (fun r hr => h r (List.mem_cons_of_mem _ hr))
      | some ch =>
        dsimp only
        have hh := h ref (List.mem_cons_self _ _) hp ch hc
        cases hcp : ch.status.phase with
        | none =>
          dsimp only
          exact ih (fun r hr => h r (List.mem_cons_of_mem _ hr))
        | some cp =>
          cases cp with
          | idle => exact absurd hcp hh.1
          | running => exact absurd hcp hh.2
          | succeeded =>
            dsimp only
            exact ih (fun r hr => h r (List.mem_cons_of_mem _ hr))
          | failed =>
            dsimp only
            exact ih (fun r hr => h r (List.mem_cons_of_mem _ hr))
          | suspended =>
            dsimp only
            exact ih (fun r hr => h r (List.mem_cons_of_mem _ hr))

/-- C7: (1) status initialization sets `startedAt = now`,
`expiresAt = startedAt + TTL` and phase Assembling; (2) any reconcile
past `expiresAt` in a phase other than Expired/CleaningUp updates the
status first to Expired and then to CleaningUp; (3) in CleaningUp, a
mission with `cleanupPolicy = Delete` whose `expiresAt` has passed and
whose teardown chains are all terminal or absent deletes itself. -/
theorem mission_ttl_lifecycle :
    (∀ (env : MissionEnv) (m : Mission), m.deletionTimestamp = none →
      m.status.phase = none →
      (missionReconcile env m).mission.status.startedAt = some env.now ∧
      (missionReconcile env m).mission.status.expiresAt = some (env.now + m.spec.ttl) ∧
      (missionReconcile env m).mission.status.phase = some MissionPhase.assembling)
    ∧ (∀ (env : MissionEnv) (m : Mission) (p : MissionPhase) (t : Int),
        m.deletionTimestamp = none → m.status.phase = some p →
        p ≠ MissionPhase.expired → p ≠ MissionPhase.cleaningUp →
        m.status.expiresAt = some t → env.now > t →
        (missionReconcile env m).statusTrace.map (fun st => st.phase) =
          [some MissionPhase.expired, some MissionPhase.cleaningUp])
    ∧ (∀ (env : MissionEnv) (m : Mission) (t : Int),
        m.spec.cleanupPolicy = "Delete" →
        m.status.expiresAt = some t → env.now > t →
        (∀ ref ∈ m.spec.chains, ref.phase = "Teardown" →
          ∀ ch, env.chains ref.name = some ch →
            ch.status.phase ≠ some ChainPhase.idle ∧
            ch.status.phase ≠ some ChainPhase.running) →
        (reconcileCleaningUp env m).deleted = true) := by
  refine ⟨?_, ?_, ?_⟩
  · intro env m hdel hph
    have hds : m.deletionTimestamp.isSome = false := by rw [hdel]; rfl
    unfold missionReconcile
    simp only [hds, Bool.false_eq_true, if_false]
    by_cases hfin : m.finalizers.contains missionFinalizer
    · rw [if_pos hfin]
      unfold missionReconcileBody
      rw [hph]
      exact ⟨rfl, rfl, rfl⟩
    · rw [if_neg hfin]
      unfold missionReconcileBody
      dsimp only
      rw [hph]
      exact ⟨rfl, rfl, rfl⟩
  · intro env m p t hdel hph hexp hclean hexpat hgt
    have hds : m.deletionTimestamp.isSome = false := by rw [hdel]; rfl
    unfold missionReconcile
    simp only [hds, Bool.false_eq_true, if_false]
    by_cases hfin : m.finalizers.contains missionFinalizer
    · rw [if_pos hfin]
      unfold missionReconcileBody
      rw [hph]
      unfold missionTTLCheck
      rw [hexpat]
      dsimp only
      rw [if_pos (show env.now > t ∧ p ≠ MissionPhase.cleaningUp ∧ p ≠ MissionPhase.expired
        from ⟨hgt, hclean, hexp⟩)]
      rfl
    · rw [if_neg hfin]
      unfold missionReconcileBody
      dsimp only
      rw [hph]
      unfold missionTTLCheck
      dsimp only
      rw [hexpat]
      dsimp only
      rw [if_pos (show env.now > t ∧ p ≠ MissionPhase.cleaningUp ∧ p ≠ MissionPhase.expired
        from ⟨hgt, hclean, hexp⟩)]
      rfl
  · intro env m t hpol hexpat hgt hchains
    unfold reconcileCleaningUp
    rw [teardownScan_proceed env m.spec.chains hchains]
    dsimp only
    have hdue : cleanupDeleteDue env m = true := by
      unfold cleanupDeleteDue
      rw [hpol, hexpat]
      simp [hgt]
    rw [if_pos hdue]

/-- A fresh mission with empty status. -/
def missionInit : Mission :=
  { missionAllEph with
    status :=
      { phase := none, knightStatuses := [], startedAt := none, completedAt := none
        expiresAt := none, result := "", totalCost := "", observedGeneration := 0
        conditions := [] } }

/-- An Active mission whose TTL expired at t = 50 (clock at 100). -/
def missionActive : Mission :=
  { missionAllEph with
    status :=
      { missionAllEph.status with
        phase := some .active, startedAt := some 0, expiresAt := some 50 } }

/-- A CleaningUp mission with cleanupPolicy Delete past its TTL. -/
def missionCleaning : Mission :=
  { missionAllEph with
    status :=
      { missionAllEph.status with
        phase := some .cleaningUp, startedAt := some 0, expiresAt := some 50 } }

theorem mission_ttl_lifecycle_witness :
    (missionReconcile envM missionInit).mission.status.expiresAt = some (100 + 3600)
    ∧ (missionReconcile envM missionActive).statusTrace.map (fun st => st.phase) =
        [some MissionPhase.expired, some MissionPhase.cleaningUp]
    ∧ (reconcileCleaningUp envM missionCleaning).deleted = true := by
  refine ⟨?_, ?_, ?_⟩
  · exact (mission_ttl_lifecycle.1 envM missionInit rfl rfl).2.1
  · exact mission_ttl_lifecycle.2.1 envM missionActive .active 50 rfl rfl
      (by decide) (by decide) rfl (by decide)
  · exact mission_ttl_lifecycle.2.2 envM missionCleaning 50 rfl rfl (by decide)
      (fun ref hr => absurd hr (List.not_mem_nil ref))

/-! ## Knight pod-spec builder — C9

Two snapshots of `KnightReconciler.buildPodSpec` exist in the sources.
The current one (the one the rest of the spec describes: probes,
arsenal git-sync sidecar, fsGroup) is modelled by `buildPodSpec`; the
older one by `buildPodSpecV0`.  The model projects the `corev1.PodSpec`
onto the fields the claim is about (containers, volumes, security
context, token automount). -/

/-- Pod-level `corev1.PodSecurityContext` (projected). -/
structure PodSecCtx where
  runAsUser : Option Int
  runAsGroup : Option Int
  fsGroup : Option Int
  fsGroupChangePolicy : Option String
deriving Repr, DecidableEq

/-- Container-level `corev1.SecurityContext` (projected). -/
structure ContainerSecCtx where
  runAsNonRoot : Option Bool
  runAsUser : Option Int
  readOnlyRootFilesystem : Option Bool
  allowPrivilegeEscalation : Option Bool
deriving Repr, DecidableEq

/-- A container (projected: name, image, security context). -/
structure ContainerM where
  name : String
  image : String
  securityContext : Option ContainerSecCtx
deriving Repr, DecidableEq

/-- A pod spec (projected). -/
structure PodSpecM where
  containers : List ContainerM
  volumeNames : List String
  securityContext : Option PodSecCtx
  automountServiceAccountToken : Option Bool
  enableServiceLinks : Option Bool
deriving Repr, DecidableEq

/-- The current `KnightReconciler.buildPodSpec`: app container with
defaulted image, alpine skill-filter sidecar, optional git-sync sidecar;
data/config/arsenal/skills volumes plus optional nix and vault; pod
security context user/group/fsGroup 1000 with OnRootMismatch; service
links disabled; and the service-account token auto-mounted (the code
comments that knights may need in-cluster access). -/
def buildPodSpec (knight : Knight) : PodSpecM :=
  let image :=
    if knight.spec.image = "" then "ghcr.io/dapperdivers/pi-knight:latest"
    else knight.spec.image
  let volumes := ["data", "config", "arsenal", "skills"]
    ++ (match knight.spec.tools with
        | some t => if t.nix.length > 0 then ["nix"] else []
        | none => [])
    ++ (match knight.spec.vault with
        | some _ => ["vault"]
        | none => [])
  let containers := [⟨"app", image, none⟩, ⟨"skill-filter", "alpine:3.21", none⟩]
    ++ (match knight.spec.arsenal with
        | some ars =>
          [⟨"git-sync",
            (if ars.image = "" then "registry.k8s.io/git-sync/git-sync:v4.4.0"
             else ars.image), none⟩]
        | none => [])
  { containers := containers
    volumeNames := volumes
    securityContext := some ⟨some 1000, some 1000, some 1000, some "OnRootMismatch"⟩
    automountServiceAccountToken := some true
    enableServiceLinks := some false }

/-- The older `buildPodSpec` snapshot: knight and skill-filter
containers with container-level security contexts (non-root, user 1000),
workspace/config volumes plus optional vault, no pod-level security
context (no fsGroup, no change policy), and the service-account token
not auto-mounted. -/
def buildPodSpecV0 (knight : Knight) : PodSpecM :=
  let image :=
    if knight.spec.image = "" then "ghcr.io/dapperdivers/pi-knight:latest"
    else knight.spec.image
  let csec : ContainerSecCtx := ⟨some true, some 1000, some false, some false⟩
  let volumes := ["workspace", "config"]
    ++ (match knight.spec.vault with
        | some _ => ["vault"]
        | none => [])
  { containers :=
      [⟨"knight", image, some csec⟩,
       ⟨"skill-filter", "ghcr.io/dapperdivers/pi-knight:latest", some csec⟩]
    volumeNames := volumes
    securityContext := none
    automountServiceAccountToken := some false
    enableServiceLinks := none }

/-- C9 counterexample: for a concrete knight, the current pod-spec
builder auto-mounts the service-account token (the claim says it does
not), and the older builder sets no pod-level security context at all
(no fsGroup 1000, no OnRootMismatch). -/
theorem knight_podspec_counterexample :
    (buildPodSpec (knightW "galahad" "0")).automountServiceAccountToken = some true
    ∧ some true ≠ (some false : Option Bool)
    ∧ (buildPodSpecV0 (knightW "galahad" "0")).securityContext = none :=
  ⟨rfl, by decide, rfl⟩

/-- C9 (amended): for every Knight, the pod spec built by the current
reconciler runs as user 1000 and group 1000 with filesystem group 1000
and `fsGroupChangePolicy` OnRootMismatch, disables service links — but
it auto-mounts the service-account token
(`automountServiceAccountToken: true`). -/
theorem knight_podspec_security (k : Knight) :
    (buildPodSpec k).securityContext =
      some ⟨some 1000, some 1000, some 1000, some "OnRootMismatch"⟩
    ∧ (buildPodSpec k).automountServiceAccountToken = some true
    ∧ (buildPodSpec k).enableServiceLinks = some false :=
  ⟨rfl, rfl, rfl⟩

/-! ### C4: DAG validation -/

/-- The claim's first rejection clause: some dependency names a step
not present in the spec. -/
def hasUnknownDep (spec : ChainSpec) : Prop :=
  ∃ s ∈ spec.steps, ∃ d ∈ s.dependsOn, d ∉ spec.steps.map (fun st => st.name)

instance (spec : ChainSpec) : Decidable (hasUnknownDep spec) := by
  unfold hasUnknownDep
  infer_instance

theorem findUnknownDep_none (names : List String) :
    ∀ steps : List ChainStep, findUnknownDep names steps = none →
      ∀ s ∈ steps, ∀ d ∈ s.dependsOn, d ∈ names := by
  intro steps
  induction steps with
  | nil => intro _ s hs; cases hs
  | cons a rest ih =>
    intro h s hs d hd
    unfold findUnknownDep at h
    cases hf : a.dependsOn.find? (fun d => !names.contains d) with
    | some d0 => rw [hf] at h; cases h
    | none =>
      rw [hf] at h
      cases hs with
      | head =>
        have := List.find?_eq_none.mp hf d hd
        simp only [Bool.not_eq_true', Bool.not_eq_true] at this
        exact (List.elem_iff).mp (by simpa using this)
      | tail _ hmem => exact ih h s hmem d hd

theorem findUnknownDep_some (names : List String) :
    ∀ steps : List ChainStep, ∀ a b, findUnknownDep names steps = some (a, b) →
      ∃ s ∈ steps, ∃ d ∈ s.dependsOn, d ∉ names := by
  intro steps
  induction steps with
  | nil => intro a b h; cases h
  | cons s rest ih =>
    intro a b h
    unfold findUnknownDep at h
    cases hf : s.dependsOn.find? (fun d => !names.contains d) with
    | some d0 =>
      refine ⟨s, List.mem_cons_self s rest, d0, List.mem_of_find?_eq_some hf, ?_⟩
      have hp := List.find?_some hf
      intro hmem
      rw [Bool.not_eq_true'] at hp
      have hco : names.contains d0 = true := (List.elem_iff).mpr hmem
      rw [hp] at hco
      cases hco
    | none =>
      rw [hf] at h
      obtain ⟨s', hs', hrest⟩ := ih a b h
      exact ⟨s', List.mem_cons_of_mem s hs', hrest⟩

/-- `validateDAG` succeeds exactly when no dependency is unknown and the
Kahn traversal drains every step. -/
theorem validateDAG_ok_iff (spec : ChainSpec) :
    validateDAG spec = .ok () ↔
      ¬ hasUnknownDep spec ∧ kahnDrained spec.steps = spec.steps.length := by
  unfold validateDAG
  cases hf : findUnknownDep (spec.steps.map (fun s => s.name)) spec.steps with
  | some sd =>
    constructor
    · intro h; cases h
    · intro ⟨hnk, _⟩
      obtain ⟨a, b⟩ := sd
      exact absurd (findUnknownDep_some _ spec.steps a b hf) hnk
  | none =>
    have hnk : ¬ hasUnknownDep spec := by
      rintro ⟨s, hs, d, hd, hmem⟩
      exact hmem (findUnknownDep_none _ spec.steps hf s hs d hd)
    by_cases hk : kahnDrained spec.steps ≠ spec.steps.length
    · rw [if_pos hk]
      constructor
      · intro h; cases h
      · intro ⟨_, he⟩; exact absurd he hk
    · rw [if_neg hk]
      push_neg at hk
      exact ⟨fun _ => ⟨hnk, hk⟩, fun _ => rfl⟩

/-! #### The Kahn traversal drains at most one node per step name

The loop dequeues each name at most once (a name is enqueued only when
its in-degree first reaches 0, and degrees only decrease), so the
number of drained nodes is bounded by the number of map keys, hence by
the step count.  The invariant carries the keys, the distinctness of
(dequeued ++ queue), and the fact that every such name has a
non-positive recorded degree. -/

/-- The key list of an in-degree map. -/
def keysOf (m : List (String × Int)) : List String := m.map (fun p => p.1)

/-- The degree of `x` is recorded and at most 0. -/
def degLe0 (m : List (String × Int)) (x : String) : Prop :=
  ∃ v, lookupDeg m x = some v ∧ v ≤ 0

theorem keysOf_decDeg (n : String) (m : List (String × Int)) :
    keysOf (decDeg m n) = keysOf m := by
  induction m with
  | nil => rfl
  | cons p rest ih =>
    have hcons : decDeg (p :: rest) n
        = (if p.1 = n then (p.1, p.2 - 1) else p) :: decDeg rest n := rfl
    rw [hcons]
    by_cases hp : p.1 = n
    · rw [if_pos hp]
      show p.1 :: keysOf (decDeg rest n) = p.1 :: keysOf rest
      rw [ih]
    · rw [if_neg hp]
      show p.1 :: keysOf (decDeg rest n) = p.1 :: keysOf rest
      rw [ih]

theorem lookupDeg_decDeg_self (n : String) (m : List (String × Int)) :
    lookupDeg (decDeg m n) n = Option.map (fun v => v - 1) (lookupDeg m n) := by
  induction m with
  | nil => rfl
  | cons p rest ih =>
    have hcons : decDeg (p :: rest) n
        = (if p.1 = n then (p.1, p.2 - 1) else p) :: decDeg rest n := rfl
    rw [hcons]
    by_cases hp : p.1 = n
    · rw [if_pos hp]
      unfold lookupDeg
      rw [List.find?_cons_of_pos _ (by simp [hp]),
        List.find?_cons_of_pos _ (by simp [hp])]
      rfl
    · rw [if_neg hp]
      unfold lookupDeg
      rw [List.find?_cons_of_neg _ (by simp [hp]),
        List.find?_cons_of_neg _ (by simp [hp])]
      exact ih

theorem lookupDeg_decDeg_ne (n x : String) (hx : x ≠ n) (m : List (String × Int)) :
    lookupDeg (decDeg m n) x = lookupDeg m x := by
  induction m with
  | nil => rfl
  | cons p rest ih =>
    have hcons : decDeg (p :: rest) n
        = (if p.1 = n then (p.1, p.2 - 1) else p) :: decDeg rest n := rfl
    rw [hcons]
    by_cases hp : p.1 = n
    · rw [if_pos hp]
      have hpx : ¬ p.1 = x := by rw [hp]; exact fun h => hx h.symm
      unfold lookupDeg
      rw [List.find?_cons_of_neg _ (by simp [hpx]),
        List.find?_cons_of_neg _ (by simp [hpx])]
      exact ih
    · rw [if_neg hp]
      by_cases hpx : p.1 = x
      · unfold lookupDeg
        rw [List.find?_cons_of_pos _ (by simp [hpx]),
          List.find?_cons_of_pos _ (by simp [hpx])]
      · unfold lookupDeg
        rw [List.find?_cons_of_neg _ (by simp [hpx]),
          List.find?_cons_of_neg _ (by simp [hpx])]
        exact ih

theorem mem_keysOf_of_lookup (m : List (String × Int)) (x : String) (v : Int)
    (h : lookupDeg m x = some v) : x ∈ keysOf m := by
  unfold lookupDeg at h
  cases hf : m.find? (fun p => p.1 = x) with
  | none => rw [hf] at h; cases h
  | some p =>
    have hm := List.mem_of_find?_eq_some hf
    have hp : p.1 = x := by
      have hp' := List.find?_some hf
      simpa using hp'
    exact hp ▸ List.mem_map_of_mem _ hm

theorem lookup_of_mem_nodup (m : List (String × Int))
    (hn : (keysOf m).Nodup) (p : String × Int) (hp : p ∈ m) :
    lookupDeg m p.1 = some p.2 := by
  induction m with
  | nil => cases hp
  | cons q rest ih =>
    have hn' : q.1 ∉ keysOf rest ∧ (keysOf rest).Nodup := by
      have hs : keysOf (q :: rest) = q.1 :: keysOf rest := rfl
      rw [hs] at hn
      exact List.nodup_cons.mp hn
    cases hp with
    | head =>
      unfold lookupDeg
      rw [List.find?_cons_of_pos _ (by simp)]
      rfl
    | tail _ hmem =>
      have hq : ¬ q.1 = p.1 := by
        intro he
        have hmemk : p.1 ∈ keysOf rest := List.mem_map_of_mem _ hmem
        rw [← he] at hmemk
        exact hn'.1 hmemk
      have ht := ih hn'.2 hmem
      unfold lookupDeg
      rw [List.find?_cons_of_neg _ (by simp [hq])]
      exact ht

theorem degLe0_decDeg (n x : String) (m : List (String × Int))
    (h : degLe0 m x) : degLe0 (decDeg m n) x := by
  obtain ⟨v, hl, hv⟩ := h
  by_cases hx : x = n
  · subst hx
    refine ⟨v - 1, ?_, by omega⟩
    rw [lookupDeg_decDeg_self, hl]
    rfl
  · exact ⟨v, by rw [lookupDeg_decDeg_ne n x hx, hl], hv⟩

/-- The loop invariant of the relax pass over an already-drained prefix
`F` (dequeued nodes plus the queued remainder): keys fixed at `K`, no
repeats, non-positive degree for every listed name, and appended names
coming from the keys. -/
def EdgeInv (K F : List String) (st : List (String × Int) × List String) : Prop :=
  keysOf st.1 = K ∧ (F ++ st.2).Nodup ∧ (∀ x ∈ F ++ st.2, degLe0 st.1 x) ∧
    (∀ y ∈ st.2, y ∈ K)

theorem relaxEdge_inv (K F : List String) (node sname : String)
    (st : List (String × Int) × List String) (d : String)
    (h : EdgeInv K F st) : EdgeInv K F (relaxEdge node sname st d) := by
  unfold relaxEdge
  by_cases hd : d = node
  · rw [if_pos hd]
    dsimp only
    by_cases hz : lookupDeg (decDeg st.1 sname) sname = some 0
    · rw [if_pos hz]
      obtain ⟨hk, hnd, hdeg, hsub⟩ := h
      have hfresh : sname ∉ F ++ st.2 := by
        intro hmem
        obtain ⟨v, hl, hv⟩ := hdeg sname hmem
        rw [lookupDeg_decDeg_self, hl] at hz
        have hz' : v - 1 = 0 := by simpa using hz
        omega
      refine ⟨?_, ?_, ?_, ?_⟩
      · dsimp only
        rw [keysOf_decDeg]
        exact hk
      · dsimp only
        rw [← List.append_assoc]
        rw [List.nodup_append]
        exact ⟨hnd, List.nodup_singleton _,
          fun a ha hb => hfresh (by rwa [show a = sname by simpa using hb] at ha)⟩
      · intro x hx
        dsimp only at hx
        rw [← List.append_assoc] at hx
        rcases List.mem_append.mp hx with hx1 | hx2
        · exact degLe0_decDeg _ _ _ (hdeg x hx1)
        · rw [show x = sname by simpa using hx2]
          exact ⟨0, hz, le_refl 0⟩
      · intro y hy
        dsimp only at hy
        rcases List.mem_append.mp hy with hy1 | hy2
        · exact hsub y hy1
        · rw [show y = sname by simpa using hy2]
          have hmemk := mem_keysOf_of_lookup _ _ _ hz
          rw [keysOf_decDeg, hk] at hmemk
          exact hmemk
    · rw [if_neg hz]
      obtain ⟨hk, hnd, hdeg, hsub⟩ := h
      refine ⟨?_, hnd, fun x hx => degLe0_decDeg _ _ _ (hdeg x hx), hsub⟩
      dsimp only
      rw [keysOf_decDeg]
      exact hk
  · rw [if_neg hd]
    exact h

theorem relaxDeps_inv (K F : List String) (node sname : String) :
    ∀ (deps : List String) (st : List (String × Int) × List String),
      EdgeInv K F st → EdgeInv K F (deps.foldl (relaxEdge node sname) st) := by
  intro deps
  induction deps with
  | nil => intro st h; exact h
  | cons d rest ih =>
    intro st h
    rw [List.foldl_cons]
    exact ih _ (relaxEdge_inv K F node sname st d h)

theorem relaxSteps_inv (K F : List String) (node : String) :
    ∀ (steps : List ChainStep) (st : List (String × Int) × List String),
      EdgeInv K F st → EdgeInv K F (steps.foldl (fun acc s => relaxOne node s acc) st) := by
  intro steps
  induction steps with
  | nil => intro st h; exact h
  | cons s rest ih =>
    intro st h
    rw [List.foldl_cons]
    exact ih _ (relaxDeps_inv K F node s.name s.dependsOn st h)

theorem relaxAll_inv (K F : List String) (node : String)
    (steps : List ChainStep) (m : List (String × Int))
    (h : EdgeInv K F (m, [])) : EdgeInv K F (relaxAll steps node m) :=
  relaxSteps_inv K F node steps (m, []) h

/-- The drain bound: whatever the fuel, the Kahn loop visits at most
`|K|` nodes when started with `|d|` already visited, `d ++ q` distinct,
within the keys, and all of non-positive degree. -/
theorem kahnLoop_le (steps : List ChainStep) (K : List String) :
    ∀ (fuel : Nat) (m : List (String × Int)) (q d : List String),
      keysOf m = K → (d ++ q).Nodup → (∀ x ∈ d ++ q, x ∈ K) →
      (∀ x ∈ d ++ q, degLe0 m x) →
      kahnLoop steps fuel m q d.length ≤ K.length := by
  intro fuel
  induction fuel with
  | zero =>
    intro m q d hk hnd hsub hdeg
    have hle : (d ++ q).length ≤ K.length :=
      (hnd.subperm hsub).length_le
    have : d.length ≤ (d ++ q).length := by
      rw [List.length_append]
      omega
    calc kahnLoop steps 0 m q d.length = d.length := rfl
      _ ≤ (d ++ q).length := this
      _ ≤ K.length := hle
  | succ fuel ih =>
    intro m q d hk hnd hsub hdeg
    cases q with
    | nil =>
      have hle : (d ++ ([] : List String)).length ≤ K.length :=
        (hnd.subperm hsub).length_le
      calc kahnLoop steps (fuel + 1) m [] d.length = d.length := rfl
        _ ≤ K.length := by simpa using hle
    | cons node rest =>
      have hstep : kahnLoop steps (fuel + 1) m (node :: rest) d.length =
          kahnLoop steps fuel (relaxAll steps node m).1
            (rest ++ (relaxAll steps node m).2) (d.length + 1) := by
        conv_lhs => unfold kahnLoop
      rw [hstep]
      have hinv0 : EdgeInv K (d ++ node :: rest) (m, []) := by
        refine ⟨hk, by simpa using hnd, ?_, ?_⟩
        · intro x hx
          exact hdeg x (by simpa using hx)
        · intro y hy
          cases hy
      have hinv := relaxAll_inv K (d ++ node :: rest) node steps m hinv0
      obtain ⟨hk', hnd', hdeg', hsub'⟩ := hinv
      have hlist : (d ++ node :: rest) ++ (relaxAll steps node m).2 =
          (d ++ [node]) ++ (rest ++ (relaxAll steps node m).2) := by
        simp
      have hlen : d.length + 1 = (d ++ [node]).length := by
        rw [List.length_append]
        rfl
      rw [hlen]
      exact ih (relaxAll steps node m).1 (rest ++ (relaxAll steps node m).2)
        (d ++ [node]) hk' (by rwa [hlist] at hnd')
        (fun x hx => by
          rcases List.mem_append.mp hx with hx1 | hx2
          · rcases List.mem_append.mp hx1 with hx3 | hx4
            · exact hsub x (List.mem_append.mpr (Or.inl hx3))
            · rw [show x = node by simpa using hx4]
              exact hsub node (by simp)
          · rcases List.mem_append.mp hx2 with hx3 | hx4
            · exact hsub x (by simp [hx3])
            · exact hsub' x hx4)
        (fun x hx => hdeg' x (by rw [hlist]; exact hx))

/-! #### The initial Kahn state satisfies the invariant -/

theorem keysOf_bumpDeg (n : String) (m : List (String × Int)) :
    keysOf (bumpDeg m n) = keysOf m := by
  induction m with
  | nil => rfl
  | cons p rest ih =>
    have hcons : bumpDeg (p :: rest) n
        = (if p.1 = n then (p.1, p.2 + 1) else p) :: bumpDeg rest n := rfl
    rw [hcons]
    by_cases hp : p.1 = n
    · rw [if_pos hp]
      show p.1 :: keysOf (bumpDeg rest n) = p.1 :: keysOf rest
      rw [ih]
    · rw [if_neg hp]
      show p.1 :: keysOf (bumpDeg rest n) = p.1 :: keysOf rest
      rw [ih]

theorem keysOf_bumpFold (n : String) :
    ∀ (deps : List String) (m : List (String × Int)),
      keysOf (deps.foldl (fun m _ => bumpDeg m n) m) = keysOf m := by
  intro deps
  induction deps with
  | nil => intro m; rfl
  | cons d rest ih =>
    intro m
    rw [List.foldl_cons, ih (bumpDeg m n), keysOf_bumpDeg]

theorem keysOf_bumpPass :
    ∀ (steps : List ChainStep) (m : List (String × Int)),
      keysOf (steps.foldl
          (fun m s => s.dependsOn.foldl (fun m _ => bumpDeg m s.name) m) m)
        = keysOf m := by
  intro steps
  induction steps with
  | nil => intro m; rfl
  | cons s rest ih =>
    intro m
    rw [List.foldl_cons, ih, keysOf_bumpFold]

theorem keysOf_overwrite (n : String) (m : List (String × Int)) :
    keysOf (m.map (fun p => if p.1 = n then (n, 0) else p)) = keysOf m := by
  induction m with
  | nil => rfl
  | cons p rest ih =>
    have hcons : (p :: rest).map (fun p => if p.1 = n then (n, 0) else p)
        = (if p.1 = n then (n, 0) else p)
          :: rest.map (fun p => if p.1 = n then (n, 0) else p) := rfl
    rw [hcons]
    by_cases hp : p.1 = n
    · rw [if_pos hp]
      show n :: keysOf (rest.map (fun p => if p.1 = n then (n, 0) else p))
        = p.1 :: keysOf rest
      rw [ih, hp]
    · rw [if_neg hp]
      show p.1 :: keysOf (rest.map (fun p => if p.1 = n then (n, 0) else p))
        = p.1 :: keysOf rest
      rw [ih]

theorem keysOf_mapInsert0 (m : List (String × Int)) (n : String) :
    keysOf (mapInsert0 m n) = keysOf m
    ∨ (keysOf (mapInsert0 m n) = keysOf m ++ [n] ∧ n ∉ keysOf m) := by
  unfold mapInsert0
  cases hany : m.any (fun p => p.1 = n)
  · rw [if_neg Bool.false_ne_true]
    right
    constructor
    · show keysOf (m ++ [(n, 0)]) = keysOf m ++ [n]
      unfold keysOf
      rw [List.map_append]
      rfl
    · intro hmem
      rcases List.mem_map.mp hmem with ⟨p, hp, hpn⟩
      have hT : m.any (fun p => p.1 = n) = true :=
        List.any_eq_true.mpr ⟨p, hp, by simp [hpn]⟩
      rw [hany] at hT
      cases hT
  · rw [if_pos rfl]
    left
    exact keysOf_overwrite n m

theorem seedFold_keys :
    ∀ (steps : List ChainStep) (m : List (String × Int)),
      (keysOf m).Nodup →
      (keysOf (steps.foldl (fun m s => mapInsert0 m s.name) m)).Nodup
      ∧ (keysOf (steps.foldl (fun m s => mapInsert0 m s.name) m)).length
          ≤ (keysOf m).length + steps.length := by
  intro steps
  induction steps with
  | nil => intro m h; exact ⟨h, by simp⟩
  | cons s rest ih =>
    intro m h
    rw [List.foldl_cons]
    rcases keysOf_mapInsert0 m s.name with heq | ⟨heq, hni⟩
    · have h' := ih (mapInsert0 m s.name) (by rw [heq]; exact h)
      refine ⟨h'.1, ?_⟩
      calc _ ≤ (keysOf (mapInsert0 m s.name)).length + rest.length := h'.2
        _ = (keysOf m).length + rest.length := by rw [heq]
        _ ≤ (keysOf m).length + (s :: rest).length := by
            rw [List.length_cons]; omega
    · have hnd : (keysOf (mapInsert0 m s.name)).Nodup := by
        rw [heq, List.nodup_append]
        exact ⟨h, List.nodup_singleton _, fun a ha hb => by
          rw [show a = s.name by simpa using hb] at ha
          exact hni ha⟩
      have h' := ih (mapInsert0 m s.name) hnd
      refine ⟨h'.1, ?_⟩
      have hlen : (keysOf (mapInsert0 m s.name)).length = (keysOf m).length + 1 := by
        rw [heq, List.length_append]
        rfl
      calc _ ≤ (keysOf (mapInsert0 m s.name)).length + rest.length := h'.2
        _ = (keysOf m).length + 1 + rest.length := by rw [hlen]
        _ ≤ (keysOf m).length + (s :: rest).length := by
            rw [List.length_cons]; omega

theorem buildInDeg_keys (steps : List ChainStep) :
    (keysOf (buildInDeg steps)).Nodup
    ∧ (keysOf (buildInDeg steps)).length ≤ steps.length := by
  unfold buildInDeg
  rw [keysOf_bumpPass]
  have h := seedFold_keys steps [] List.nodup_nil
  exact ⟨h.1, by simpa [keysOf] using h.2⟩

theorem initQueue_subset (m : List (String × Int)) :
    ∀ x ∈ initQueue m, x ∈ keysOf m := by
  intro x hx
  unfold initQueue at hx
  obtain ⟨p, hp, hpx⟩ := List.mem_map.mp hx
  exact hpx ▸ List.mem_map_of_mem _ (List.mem_filter.mp hp).1

theorem initQueue_nodup (m : List (String × Int))
    (h : (keysOf m).Nodup) : (initQueue m).Nodup := by
  unfold initQueue
  exact List.Nodup.sublist
    ((m.filter_sublist).map (fun p : String × Int => p.1)) h

theorem initQueue_degLe0 (m : List (String × Int))
    (h : (keysOf m).Nodup) : ∀ x ∈ initQueue m, degLe0 m x := by
  intro x hx
  unfold initQueue at hx
  obtain ⟨p, hp, hpx⟩ := List.mem_map.mp hx
  obtain ⟨hpm, hp0⟩ := List.mem_filter.mp hp
  have hp0' : p.2 = 0 := by simpa using hp0
  exact hpx ▸ ⟨p.2, lookup_of_mem_nodup m h p hpm, by rw [hp0']⟩

/-- The Kahn traversal can never drain more nodes than there are
steps: the "fewer nodes than the step count" test of `validateDAG` is
exactly an inequality test. -/
theorem kahnDrained_le (steps : List ChainStep) :
    kahnDrained steps ≤ steps.length := by
  obtain ⟨hnd, hlen⟩ := buildInDeg_keys steps
  have h0 := kahnLoop_le steps (keysOf (buildInDeg steps)) (steps.length + 1)
    (buildInDeg steps) (initQueue (buildInDeg steps)) [] rfl
    (by simpa using initQueue_nodup _ hnd)
    (by intro x hx; exact initQueue_subset _ x (by simpa using hx))
    (by intro x hx; exact initQueue_degLe0 _ hnd x (by simpa using hx))
  exact le_trans h0 hlen

/-! #### The two error shapes of `validateDAG` -/

theorem validateDAG_error_of_unknown (spec : ChainSpec)
    (h : hasUnknownDep spec) : ∃ msg, validateDAG spec = .error msg := by
  unfold validateDAG
  cases hf : findUnknownDep (spec.steps.map (fun s => s.name)) spec.steps with
  | some sd => exact ⟨_, rfl⟩
  | none =>
    exfalso
    rcases h with ⟨s, hs, d, hd, hmem⟩
    exact hmem (findUnknownDep_none _ spec.steps hf s hs d hd)

theorem validateDAG_error_cycle (spec : ChainSpec) (h1 : ¬ hasUnknownDep spec)
    (h2 : kahnDrained spec.steps < spec.steps.length) :
    validateDAG spec = .error "chain DAG contains a cycle" := by
  unfold validateDAG
  cases hf : findUnknownDep (spec.steps.map (fun s => s.name)) spec.steps with
  | some sd =>
    exfalso
    obtain ⟨a, b⟩ := sd
    exact h1 (findUnknownDep_some _ spec.steps a b hf)
  | none =>
    rw [if_pos (Nat.ne_of_lt h2)]

/-! #### Condition lookup after `SetStatusCondition` -/

theorem findCondition_map_over_self (conds : List Condition) (c : Condition)
    (h : conds.any (fun x => x.ctype = c.ctype) = true) :
    findCondition (conds.map (fun x => if x.ctype = c.ctype then c else x))
      c.ctype = some c := by
  induction conds with
  | nil => cases h
  | cons x rest ih =>
    have hcons : (x :: rest).map (fun x => if x.ctype = c.ctype then c else x)
        = (if x.ctype = c.ctype then c else x)
          :: rest.map (fun x => if x.ctype = c.ctype then c else x) := rfl
    rw [hcons]
    by_cases hx : x.ctype = c.ctype
    · rw [if_pos hx]
      unfold findCondition
      rw [List.find?_cons_of_pos _ (by simp)]
    · rw [if_neg hx]
      unfold findCondition
      rw [List.find?_cons_of_neg _ (by simp [hx])]
      have h' : rest.any (fun x => x.ctype = c.ctype) = true := by
        rcases List.any_eq_true.mp h with ⟨y, hy, hyc⟩
        cases hy with
        | head => exact absurd (of_decide_eq_true hyc) hx
        | tail _ hmem => exact List.any_eq_true.mpr ⟨y, hmem, hyc⟩
      exact ih h'

theorem findCondition_map_over_ne (conds : List Condition) (c : Condition)
    (t : String) (h : t ≠ c.ctype) :
    findCondition (conds.map (fun x => if x.ctype = c.ctype then c else x)) t
      = findCondition conds t := by
  induction conds with
  | nil => rfl
  | cons x rest ih =>
    have hcons : (x :: rest).map (fun x => if x.ctype = c.ctype then c else x)
        = (if x.ctype = c.ctype then c else x)
          :: rest.map (fun x => if x.ctype = c.ctype then c else x) := rfl
    rw [hcons]
    by_cases hx : x.ctype = c.ctype
    · rw [if_pos hx]
      have h1 : ¬ c.ctype = t := fun he => h he.symm
      have h2 : ¬ x.ctype = t := by rw [hx]; exact h1
      unfold findCondition
      rw [List.find?_cons_of_neg _ (by simp [h1]),
        List.find?_cons_of_neg _ (by simp [h2])]
      exact ih
    · rw [if_neg hx]
      by_cases hxt : x.ctype = t
      · unfold findCondition
        rw [List.find?_cons_of_pos _ (by simp [hxt]),
          List.find?_cons_of_pos _ (by simp [hxt])]
      · unfold findCondition
        rw [List.find?_cons_of_neg _ (by simp [hxt]),
          List.find?_cons_of_neg _ (by simp [hxt])]
        exact ih

theorem findCondition_append_self (conds : List Condition) (c : Condition)
    (h : conds.any (fun x => x.ctype = c.ctype) = false) :
    findCondition (conds ++ [c]) c.ctype = some c := by
  induction conds with
  | nil =>
    unfold findCondition
    rw [List.nil_append, List.find?_cons_of_pos _ (by simp)]
  | cons x rest ih =>
    have hx : ¬ x.ctype = c.ctype := fun he => by
      have hT : (x :: rest).any (fun y => y.ctype = c.ctype) = true :=
        List.any_eq_true.mpr ⟨x, List.mem_cons_self x rest, by simp [he]⟩
      rw [h] at hT
      cases hT
    have hr : rest.any (fun y => y.ctype = c.ctype) = false := by
      cases hany : rest.any (fun y => y.ctype = c.ctype)
      · rfl
      · rcases List.any_eq_true.mp hany with ⟨y, hy, hyc⟩
        have hT : (x :: rest).any (fun y => y.ctype = c.ctype) = true :=
          List.any_eq_true.mpr ⟨y, List.mem_cons_of_mem _ hy, hyc⟩
        rw [h] at hT
        cases hT
    show findCondition (x :: (rest ++ [c])) c.ctype = some c
    unfold findCondition
    rw [List.find?_cons_of_neg _ (by simp [hx])]
    exact ih hr

theorem findCondition_append_ne (conds : List Condition) (c : Condition)
    (t : String) (h : t ≠ c.ctype) :
    findCondition (conds ++ [c]) t = findCondition conds t := by
  induction conds with
  | nil =>
    have h1 : ¬ c.ctype = t := fun he => h he.symm
    unfold findCondition
    rw [List.nil_append, List.find?_cons_of_neg _ (by simp [h1])]
  | cons x rest ih =>
    by_cases hxt : x.ctype = t
    · show findCondition (x :: (rest ++ [c])) t = findCondition (x :: rest) t
      unfold findCondition
      rw [List.find?_cons_of_pos _ (by simp [hxt]),
        List.find?_cons_of_pos _ (by simp [hxt])]
    · show findCondition (x :: (rest ++ [c])) t = findCondition (x :: rest) t
      unfold findCondition
      rw [List.find?_cons_of_neg _ (by simp [hxt]),
        List.find?_cons_of_neg _ (by simp [hxt])]
      exact ih

theorem findCondition_setCondition_self (conds : List Condition) (c : Condition) :
    findCondition (setCondition conds c) c.ctype = some c := by
  unfold setCondition
  cases hany : conds.any (fun x => x.ctype = c.ctype)
  · rw [if_neg Bool.false_ne_true]
    exact findCondition_append_self conds c hany
  · rw [if_pos rfl]
    exact findCondition_map_over_self conds c hany

theorem findCondition_setCondition_ne (conds : List Condition) (c : Condition)
    (t : String) (h : t ≠ c.ctype) :
    findCondition (setCondition conds c) t = findCondition conds t := by
  unfold setCondition
  cases hany : conds.any (fun x => x.ctype = c.ctype)
  · rw [if_neg Bool.false_ne_true]
    exact findCondition_append_ne conds c t h
  · rw [if_pos rfl]
    exact findCondition_map_over_ne conds c t h

/-! #### The Running branch only ever writes `Complete` conditions -/

theorem runChainFinish_valid (env : ChainEnv) (c : Chain)
    (sts3 : List ChainStepStatus) (pubs : List Published) (af at' : Bool) :
    findCondition (runChainFinish env c sts3 pubs af at').chain.status.conditions
      "Valid" = findCondition c.status.conditions "Valid" := by
  unfold runChainFinish
  cases at'
  · rw [if_neg Bool.false_ne_true]
  · rw [if_pos rfl]
    cases af
    · rw [if_neg Bool.false_ne_true]
      exact findCondition_setCondition_ne _ _ _ (by decide)
    · rw [if_pos rfl]
      exact findCondition_setCondition_ne _ _ _ (by decide)

theorem findValid_runChainCore (env : ChainEnv) (c : Chain) :
    findCondition (runChainCore env c).chain.status.conditions "Valid"
      = findCondition c.status.conditions "Valid" := by
  unfold runChainCore
  exact runChainFinish_valid env c _ _ _ _

theorem findValid_reconcileRunning (env : ChainEnv) (c : Chain) :
    findCondition (reconcileRunning env c).chain.status.conditions "Valid"
      = findCondition c.status.conditions "Valid" := by
  unfold reconcileRunning
  cases hs : c.status.startedAt with
  | none => exact findValid_runChainCore env c
  | some t0 =>
    dsimp only
    by_cases ht : env.now - t0 > c.spec.timeout * 1000
    · rw [if_pos ht]
      show findCondition (chainTimeoutStatus env c).conditions "Valid"
        = findCondition c.status.conditions "Valid"
      unfold chainTimeoutStatus
      exact findCondition_setCondition_ne _ _ _
        (show ("Valid" : String) ≠ "Complete" by decide)
    · rw [if_neg ht]
      exact findValid_runChainCore env c

/-- C4 (amended): once knight refs validate, DAG validation of a chain
with a dependency naming an unknown step writes `Valid=False` with
reason `CyclicDependency` (not `UnknownStep`: the reconciler labels
every DAG failure `CyclicDependency` and only the message
distinguishes); a chain without unknown dependencies whose Kahn
traversal drains fewer nodes than the step count writes `Valid=False`,
reason `CyclicDependency`, message "chain DAG contains a cycle"; a
chain that is neither finishes its reconcile with `Valid=True`, reason
`Valid`. -/
theorem dag_validation_condition (env : ChainEnv) (c1 : Chain)
    (hk : validateKnightRefs env c1 = .ok ()) :
    (hasUnknownDep c1.spec →
      ∃ msg, findCondition (chainReconcileBody env c1).chain.status.conditions
        "Valid" = some ⟨"Valid", false, "CyclicDependency", msg⟩)
    ∧ (¬ hasUnknownDep c1.spec →
        kahnDrained c1.spec.steps < c1.spec.steps.length →
      findCondition (chainReconcileBody env c1).chain.status.conditions "Valid"
        = some ⟨"Valid", false, "CyclicDependency", "chain DAG contains a cycle"⟩)
    ∧ (¬ hasUnknownDep c1.spec →
        ¬ kahnDrained c1.spec.steps < c1.spec.steps.length →
      findCondition (chainReconcileBody env c1).chain.status.conditions "Valid"
        = some ⟨"Valid", true, "Valid", "Chain spec is valid"⟩) := by
  refine ⟨?_, ?_, ?_⟩
  · intro h
    obtain ⟨msg, hmsg⟩ := validateDAG_error_of_unknown c1.spec h
    refine ⟨msg, ?_⟩
    unfold chainReconcileBody
    rw [hk, hmsg]
    dsimp only
    exact findCondition_setCondition_self _ _
  · intro h1 h2
    have hmsg := validateDAG_error_cycle c1.spec h1 h2
    unfold chainReconcileBody
    rw [hk, hmsg]
    dsimp only
    exact findCondition_setCondition_self _ _
  · intro h1 h2
    have heq : kahnDrained c1.spec.steps = c1.spec.steps.length :=
      Nat.le_antisymm (kahnDrained_le _) (Nat.not_lt.mp h2)
    have hok : validateDAG c1.spec = .ok () := (validateDAG_ok_iff c1.spec).mpr ⟨h1, heq⟩
    unfold chainReconcileBody
    rw [hk, hok]
    dsimp only
    split
    · exact findCondition_setCondition_self _ _
    · split
      · exact findCondition_setCondition_self _ _
      · rw [findValid_reconcileRunning]
        exact findCondition_setCondition_self _ _
      · exact findCondition_setCondition_self _ _

/-- A chain whose single step depends on a step name that does not
exist. -/
def chainUnk : Chain :=
  { name := "s4", nspace := "default", generation := 1
    deletionTimestamp := none, finalizers := [chainFinalizer]
    spec :=
      { description := ""
        steps := [⟨"a", "galahad", "task-a", ["z"], 120, "", false⟩]
        timeout := 600, schedule := "", input := "", roundTableRef := ""
        suspended := false, retryPolicy := none }
    status := ⟨none, [], none, none, 0, 0, none, 0, []⟩ }

/-- C4 counterexample: a dependency naming an unknown step ends the
reconcile with the `Valid` condition carrying reason
`CyclicDependency`, not the claimed `UnknownStep`; only the message
mentions the unknown step. -/
theorem dag_validation_counterexample :
    hasUnknownDep chainUnk.spec
    ∧ findCondition (chainReconcile envW chainUnk).chain.status.conditions
        "Valid" = some ⟨"Valid", false, "CyclicDependency",
          "step \"a\" depends on unknown step \"z\""⟩
    ∧ "CyclicDependency" ≠ "UnknownStep" := ⟨by decide, by rfl, by decide⟩

theorem dag_validation_condition_witness :
    validateKnightRefs envW chainUnk = .ok ()
    ∧ ∃ msg, findCondition
        (chainReconcileBody envW chainUnk).chain.status.conditions "Valid"
        = some ⟨"Valid", false, "CyclicDependency", msg⟩ :=
  ⟨by rfl, (dag_validation_condition envW chainUnk (by rfl)).1 (by decide)⟩

end RoundTable
